import Mathlib

/-!
Verification of the notice-board core against its specification.

This file contains a shallow embedding, in Lean 4, of the three core
subsystems of the notice-board repository:

* the lifecycle state machine (`NoticeStateMachine` in the source),
* the priority scheduler (`NoticeScheduler` in the source),
* the audience targeting index (`AudienceTargetingService` in the source),

followed by theorems settling the frozen claims about them.

Modelling conventions:

* JavaScript `Date` values and `Date.now()` results are modelled as `Int`
  milliseconds since the epoch; every function of the source that reads the
  clock takes the current time as an explicit `now : Int` argument.
* JavaScript `Map` objects are modelled as association lists in insertion
  order (`mlookup` / `mset` / `mdel` below mirror `get` / `set` / `delete`).
* A `throw new Error(msg)` in the source is modelled as `Except.error msg`;
  a normal return is `Except.ok`.  `Except.error` therefore represents an
  uncaught fault, not a typed result value.
* The nondeterministic id generator `generateTransitionId` (wall clock plus
  `Math.random`) is modelled by passing the generated id as an explicit
  argument.
-/

namespace NoticeBoard

/-- JS `Map.prototype.get` on a map modelled as an association list. -/
def mlookup {α β : Type} [DecidableEq α] : List (α × β) → α → Option β
  | [], _ => none
  | (a, b) :: t, k => if a = k then some b else mlookup t k

/-- JS `Map.prototype.set`: overwrite in place (keeping insertion order) or
append a fresh key at the end. -/
def mset {α β : Type} [DecidableEq α] : List (α × β) → α → β → List (α × β)
  | [], k, v => [(k, v)]
  | (a, b) :: t, k, v => if a = k then (k, v) :: t else (a, b) :: mset t k v

/-- JS `Map.prototype.delete`. -/
def mdel {α β : Type} [DecidableEq α] : List (α × β) → α → List (α × β)
  | [], _ => []
  | (a, b) :: t, k => if a = k then t else (a, b) :: mdel t k

namespace NSM

/-- The ten workflow states of the lifecycle machine (`enum NoticeState`).
The TS enum values are the strings returned by `NoticeState.str`. -/
inductive NoticeState
  | DRAFT | SUBMITTED | MODERATION_PENDING | APPROVED | REJECTED
  | SCHEDULED | ACTIVE | EXPIRED | ARCHIVED | REINSTATED
deriving DecidableEq, Repr

/-- The TS enum string value of each state. -/
def NoticeState.str : NoticeState → String
  | .DRAFT => "draft"
  | .SUBMITTED => "submitted"
  | .MODERATION_PENDING => "moderation_pending"
  | .APPROVED => "approved"
  | .REJECTED => "rejected"
  | .SCHEDULED => "scheduled"
  | .ACTIVE => "active"
  | .EXPIRED => "expired"
  | .ARCHIVED => "archived"
  | .REINSTATED => "reinstated"

/-- The nine workflow events (`enum NoticeEvent`). -/
inductive NoticeEvent
  | SUBMIT | APPROVE | REJECT | SCHEDULE | ACTIVATE
  | EXPIRE | ARCHIVE | REINSTATE | UPDATE
deriving DecidableEq, Repr

/-- The TS enum string value of each event. -/
def NoticeEvent.str : NoticeEvent → String
  | .SUBMIT => "submit"
  | .APPROVE => "approve"
  | .REJECT => "reject"
  | .SCHEDULE => "schedule"
  | .ACTIVATE => "activate"
  | .EXPIRE => "expire"
  | .ARCHIVE => "archive"
  | .REINSTATE => "reinstate"
  | .UPDATE => "update"

/-- The relevant field of the untyped `metadata` payload: `schedule` events
may carry a `scheduledTime` timestamp. -/
structure Metadata where
  scheduledTime : Option Int := none
deriving DecidableEq, Repr

/-- The source's `interface TransitionInput`. -/
structure TransitionInput where
  event : NoticeEvent
  timestamp : Int
  userId : String
  userRole : String
  metadata : Option Metadata := none
deriving DecidableEq, Repr

/-- The source's `interface StateTransition`: one audit-log entry. -/
structure StateTransition where
  id : String
  noticeId : String
  fromState : NoticeState
  toState : NoticeState
  event : NoticeEvent
  timestamp : Int
  userId : String
  userRole : String
  metadata : Option Metadata := none
  isValid : Bool
  reason : Option String := none
deriving DecidableEq, Repr

/-- The source's `interface NoticeContext`. -/
structure NoticeContext where
  id : String
  currentState : NoticeState
  createdAt : Int
  visibleFrom : Option Int := none
  visibleUntil : Option Int := none
  priority : Nat
  authorId : String
  lastModifiedAt : Int
deriving DecidableEq, Repr

/-- The source's `addTransition`: ensure the inner map for `fromState` exists, then set
the event entry in it. -/
def addTransition (table : List (NoticeState × List (NoticeEvent × NoticeState)))
    (fromState : NoticeState) (event : NoticeEvent) (toState : NoticeState) :
    List (NoticeState × List (NoticeEvent × NoticeState)) :=
  let inner := (mlookup table fromState).getD []
  mset table fromState (mset inner event toState)

/-- The `addTransition` calls of `initializeTransitionTable`, in source
order. -/
def transitionEntries : List (NoticeState × NoticeEvent × NoticeState) :=
  [ (.DRAFT, .SUBMIT, .SUBMITTED)
  , (.DRAFT, .UPDATE, .DRAFT)
  , (.DRAFT, .ARCHIVE, .ARCHIVED)
  , (.SUBMITTED, .APPROVE, .MODERATION_PENDING)
  , (.SUBMITTED, .REJECT, .REJECTED)
  , (.SUBMITTED, .UPDATE, .DRAFT)
  , (.MODERATION_PENDING, .APPROVE, .APPROVED)
  , (.MODERATION_PENDING, .REJECT, .REJECTED)
  , (.APPROVED, .SCHEDULE, .SCHEDULED)
  , (.APPROVED, .ACTIVATE, .ACTIVE)
  , (.APPROVED, .REJECT, .REJECTED)
  , (.SCHEDULED, .ACTIVATE, .ACTIVE)
  , (.SCHEDULED, .REJECT, .REJECTED)
  , (.ACTIVE, .EXPIRE, .EXPIRED)
  , (.ACTIVE, .ARCHIVE, .ARCHIVED)
  , (.EXPIRED, .ARCHIVE, .ARCHIVED)
  , (.EXPIRED, .REINSTATE, .REINSTATED)
  , (.ARCHIVED, .REINSTATE, .REINSTATED)
  , (.REINSTATED, .APPROVE, .APPROVED)
  , (.REINSTATED, .ARCHIVE, .ARCHIVED)
  , (.REJECTED, .REINSTATE, .REINSTATED) ]

/-- The source's `initializeTransitionTable`, run once by the constructor. -/
def transitionTable : List (NoticeState × List (NoticeEvent × NoticeState)) :=
  transitionEntries.foldl (fun table e => addTransition table e.1 e.2.1 e.2.2) []

/-- The source's `getNextState`: two-level table lookup; `null` when the pair is absent. -/
def getNextState (currentState : NoticeState) (event : NoticeEvent) :
    Option NoticeState :=
  match mlookup transitionTable currentState with
  | none => none
  | some stateTransitions => mlookup stateTransitions event

/-- The result record of `evaluateGuards`. -/
structure GuardResult where
  allowed : Bool
  reason : Option String := none
deriving DecidableEq, Repr

/-- JS truthy comparison `o && o > t` on an optional date. -/
def optAfter (o : Option Int) (t : Int) : Bool :=
  match o with
  | some v => t < v
  | none => false

/-- Milliseconds in a day (`1000 * 60 * 60 * 24`). -/
def msPerDay : Int := 1000 * 60 * 60 * 24

/-- The source's `evaluateGuards`.  The source computes
`daysSinceArchived = (timestamp - lastModifiedAt) / 86400000` with real
division and compares it with 30; `timestamp - lastModifiedAt > 30 * msPerDay`
is the same comparison carried out without the division. -/
def evaluateGuards (fromState toState : NoticeState) (input : TransitionInput)
    (context : NoticeContext) : GuardResult :=
  if input.event = .APPROVE ∧ input.userRole ≠ "moderator" ∧ input.userRole ≠ "admin" then
    { allowed := false, reason := some "Only moderators can approve notices" }
  else if input.event = .REJECT ∧ input.userRole ≠ "moderator" ∧ input.userRole ≠ "admin" then
    { allowed := false, reason := some "Only moderators can reject notices" }
  else if input.event = .REINSTATE ∧ input.userRole ≠ "admin" then
    { allowed := false, reason := some "Only admins can reinstate notices" }
  else if input.event = .SUBMIT ∧ input.userRole = "user" then
    { allowed := false, reason := some "Users cannot submit notices directly" }
  else if input.event = .ACTIVATE ∧ optAfter context.visibleFrom input.timestamp = true then
    { allowed := false, reason := some "Cannot activate before visible_from time" }
  else if input.event = .EXPIRE ∧ optAfter context.visibleUntil input.timestamp = true then
    { allowed := false, reason := some "Cannot expire before visible_until time" }
  else if fromState = .ARCHIVED ∧ toState = .REINSTATED ∧
      input.timestamp - context.lastModifiedAt > 30 * msPerDay ∧ input.userRole ≠ "admin" then
    { allowed := false,
      reason := some "Cannot reinstate notices archived for more than 30 days without admin privileges" }
  else { allowed := true }

/-- The source's `updateContextAfterTransition`.  The JS truthiness test
`input.metadata?.scheduledTime` is modelled as presence of the optional
field. -/
def updateContextAfterTransition (context : NoticeContext) (newState : NoticeState)
    (input : TransitionInput) : NoticeContext :=
  let c := { context with currentState := newState, lastModifiedAt := input.timestamp }
  match input.metadata with
  | some md =>
    match md.scheduledTime with
    | some st => if newState = .SCHEDULED then { c with visibleFrom := some st } else c
    | none => c
  | none => c

/-- The mutable fields of `class NoticeStateMachine` (the transition table
is fixed at construction and lives in `transitionTable`). -/
structure Machine where
  stateLog : List StateTransition := []
  noticeStates : List (String × NoticeState) := []
  noticeContexts : List (String × NoticeContext) := []
deriving DecidableEq, Repr

/-- The source's `logTransition`: append-only push onto the audit log. -/
def logTransition (m : Machine) (t : StateTransition) : Machine :=
  { m with stateLog := m.stateLog ++ [t] }

/-- The source's `initializeNotice`. -/
def initializeNotice (m : Machine) (noticeId : String) (context : NoticeContext)
    (transId : String) (now : Int) : Machine :=
  logTransition
    { m with noticeStates := mset m.noticeStates noticeId .DRAFT,
             noticeContexts := mset m.noticeContexts noticeId context }
    { id := transId, noticeId := noticeId, fromState := .DRAFT, toState := .DRAFT,
      event := .UPDATE, timestamp := now, userId := "system", userRole := "system",
      isValid := true, reason := some "Initial state" }

/-- The source's `transition`.  `Except.error` models the `throw new Error(...)` paths for
unknown notice ids; every other path returns the logged `StateTransition`
and the machine after the call. -/
def transition (m : Machine) (noticeId : String) (input : TransitionInput)
    (transId : String) : Except String (StateTransition × Machine) :=
  match mlookup m.noticeStates noticeId with
  | none => .error ("Notice " ++ noticeId ++ " not found")
  | some currentState =>
    match mlookup m.noticeContexts noticeId with
    | none => .error ("Notice context " ++ noticeId ++ " not found")
    | some context =>
      match getNextState currentState input.event with
      | none =>
        let t : StateTransition :=
          { id := transId, noticeId := noticeId, fromState := currentState,
            toState := currentState, event := input.event, timestamp := input.timestamp,
            userId := input.userId, userRole := input.userRole, metadata := input.metadata,
            isValid := false,
            reason := some ("Invalid transition from " ++ currentState.str ++
              " with event " ++ input.event.str) }
        .ok (t, logTransition m t)
      | some newState =>
        let guardResult := evaluateGuards currentState newState input context
        if guardResult.allowed then
          let t : StateTransition :=
            { id := transId, noticeId := noticeId, fromState := currentState,
              toState := newState, event := input.event, timestamp := input.timestamp,
              userId := input.userId, userRole := input.userRole,
              metadata := input.metadata, isValid := true }
          let m1 := { m with
            noticeStates := mset m.noticeStates noticeId newState,
            noticeContexts := mset m.noticeContexts noticeId
              (updateContextAfterTransition context newState input) }
          .ok (t, logTransition m1 t)
        else
          let t : StateTransition :=
            { id := transId, noticeId := noticeId, fromState := currentState,
              toState := currentState, event := input.event, timestamp := input.timestamp,
              userId := input.userId, userRole := input.userRole,
              metadata := input.metadata, isValid := false, reason := guardResult.reason }
          .ok (t, logTransition m t)

/-- The source's `Object.values(NoticeState)` in declaration order. -/
def allStates : List NoticeState :=
  [.DRAFT, .SUBMITTED, .MODERATION_PENDING, .APPROVED, .REJECTED,
   .SCHEDULED, .ACTIVE, .EXPIRED, .ARCHIVED, .REINSTATED]

/-- The source's `!transitions || transitions.size === 0` in `validateFSM`. -/
def hasNoOutgoing (state : NoticeState) : Bool :=
  match mlookup transitionTable state with
  | none => true
  | some ts => ts.length = 0

/-- One pass of the `while (changed)` reachability loop of `validateFSM`:
for every table row whose source is already reachable, add its targets. -/
def reachStep (reachable : List NoticeState) : List NoticeState :=
  transitionTable.foldl
    (fun r entry =>
      if entry.1 ∈ r then
        entry.2.foldl (fun r2 e => if e.2 ∈ r2 then r2 else r2 ++ [e.2]) r
      else r)
    reachable

/-- The `while (changed)` loop: iterate `reachStep` to its fixpoint.  The
source loop runs until a pass adds nothing; since each productive pass adds
at least one of the ten states, `allStates.length` passes reach the same
fixpoint (witnessed by `reachStep_fixpoint` below). -/
def reachIterate : Nat → List NoticeState → List NoticeState
  | 0, r => r
  | n + 1, r =>
    let r2 := reachStep r
    if r2 = r then r else reachIterate n r2

/-- The reachable-state set computed by `validateFSM`, starting from
`DRAFT`. -/
def reachableStates : List NoticeState :=
  reachIterate allStates.length [NoticeState.DRAFT]

/-- Result record of `validateFSM`. -/
structure ValidationResult where
  isValid : Bool
  issues : List String
deriving DecidableEq, Repr

/-- The source's `validateFSM`: the no-outgoing check (skipping ARCHIVED and REJECTED),
then the unreachable-state check. -/
def validateFSM : ValidationResult :=
  let issues1 := allStates.foldl
    (fun issues state =>
      if hasNoOutgoing state ∧ state ≠ .ARCHIVED ∧ state ≠ .REJECTED then
        issues ++ ["State " ++ state.str ++ " has no outgoing transitions"]
      else issues)
    []
  let issues2 := allStates.foldl
    (fun issues state =>
      if state ∉ reachableStates then
        issues ++ ["State " ++ state.str ++ " is unreachable"]
      else issues)
    issues1
  { isValid := issues2.length = 0, issues := issues2 }

end NSM

namespace Sched

/-- The source's `enum NoticePriority` ordinals (lower = more urgent). -/
def EMERGENCY : Nat := 0

def URGENT : Nat := 1

def HIGH : Nat := 2

def NORMAL : Nat := 3

def LOW : Nat := 4

/-- The source's `interface ScheduledNotice`. -/
structure ScheduledNotice where
  noticeId : String
  title : String := ""
  content : String := ""
  priority : Nat
  visibleFrom : Int
  visibleUntil : Int
  targetAudience : List String := []
  channels : List String := []
  createdAt : Int := 0
  retryCount : Nat := 0
  maxRetries : Nat := 3
deriving DecidableEq, Repr, Inhabited

/-- The source's `DeliveryCheckpoint.status` values. -/
inductive DeliveryStatus
  | pending | delivered | failed | expired
deriving DecidableEq, Repr

/-- The source's `interface DeliveryCheckpoint`. -/
structure DeliveryCheckpoint where
  targetId : String
  noticeVersionId : String
  status : DeliveryStatus
  lastAttemptAt : Int
  attempts : Nat
  nextRetryAt : Option Int := none
deriving DecidableEq, Repr

/-- The source's `interface TimeInterval` (`end` is renamed `endTime`, a Lean reserved
word). -/
structure TimeInterval where
  start : Int
  endTime : Int
  noticeId : String
  isBlackout : Bool := false
deriving DecidableEq, Repr

/-- The source's `bufferSize = 100`. -/
def bufferSize : Nat := 100

/-- The mutable fields of `class NoticeScheduler`. -/
structure SchedulerState where
  dispatchQueue : List ScheduledNotice := []
  activeNotices : List (String × ScheduledNotice) := []
  deliveryCheckpoints : List (String × List DeliveryCheckpoint) := []
  timeIntervals : List TimeInterval := []
  displayBuffers : List (String × List ScheduledNotice) := []
  timerWheel : List (Int × List ScheduledNotice) := []
  currentTick : Int := 0
deriving DecidableEq, Repr

/-- The source's `comparePriority`: by priority ordinal, then by `visibleFrom`. -/
def comparePriority (a b : ScheduledNotice) : Int :=
  if a.priority ≠ b.priority then (a.priority : Int) - (b.priority : Int)
  else a.visibleFrom - b.visibleFrom

/-- The two-assignment element swap used by both heapify routines. -/
def swapQ (q : List ScheduledNotice) (i j : Nat) : List ScheduledNotice :=
  (q.set i (q.getD j default)).set j (q.getD i default)

/-- The source's `heapifyUp`. -/
def heapifyUp (q : List ScheduledNotice) (index : Nat) : List ScheduledNotice :=
  if index = 0 then q
  else
    let parentIndex := (index - 1) / 2
    let current := q.getD index default
    let parent := q.getD parentIndex default
    if comparePriority current parent < 0 then
      heapifyUp (swapQ q index parentIndex) parentIndex
    else q
termination_by index
decreasing_by
  exact Nat.lt_of_le_of_lt (Nat.div_le_self _ _) (Nat.sub_lt (Nat.pos_of_ne_zero (by assumption)) Nat.one_pos)

/-- The index the `smallest` variable of `heapifyDown` holds after the two
child comparisons. -/
def downTarget (q : List ScheduledNotice) (index : Nat) : Nat :=
  let leftChild := 2 * index + 1
  let rightChild := 2 * index + 2
  let s1 :=
    if leftChild < q.length ∧
        comparePriority (q.getD leftChild default) (q.getD index default) < 0 then
      leftChild
    else index
  if rightChild < q.length ∧
      comparePriority (q.getD rightChild default) (q.getD s1 default) < 0 then
    rightChild
  else s1

theorem downTarget_gt {q : List ScheduledNotice} {index : Nat}
    (h : downTarget q index ≠ index) : index < downTarget q index := by
  simp only [downTarget] at *
  split_ifs at * <;> omega

theorem downTarget_lt_length {q : List ScheduledNotice} {index : Nat}
    (h : downTarget q index ≠ index) : downTarget q index < q.length := by
  simp only [downTarget] at *
  split_ifs at * <;> omega

/-- The source's `heapifyDown`. -/
def heapifyDown (q : List ScheduledNotice) (index : Nat) : List ScheduledNotice :=
  let smallest := downTarget q index
  if _h : smallest ≠ index then
    heapifyDown (swapQ q index smallest) smallest
  else q
termination_by q.length - index
decreasing_by
  have h1 := downTarget_gt _h
  have h2 := downTarget_lt_length _h
  simp only [swapQ, List.length_set]
  omega

/-- The source's `insertIntoPriorityQueue`: push at the end, then sift up. -/
def insertIntoPriorityQueue (q : List ScheduledNotice) (notice : ScheduledNotice) :
    List ScheduledNotice :=
  let q1 := q ++ [notice]
  heapifyUp q1 (q1.length - 1)

/-- The source's `getNextNotice`: return the root, move the popped last element to the
root and sift down. -/
def getNextNotice (q : List ScheduledNotice) :
    Option ScheduledNotice × List ScheduledNotice :=
  if q.length = 0 then (none, q)
  else
    let notice := q.getD 0 default
    let lastNotice := q.getD (q.length - 1) default
    let q1 := q.dropLast
    if 0 < q1.length then (some notice, heapifyDown (q1.set 0 lastNotice) 0)
    else (some notice, q1)

/-- The source's `removeFromQueue`: find the first entry with the notice's id, replace it
by the popped last element and sift down.  `findIdx` returns the length when
nothing matches, which models `index === -1`. -/
def removeFromQueue (q : List ScheduledNotice) (notice : ScheduledNotice) :
    List ScheduledNotice :=
  let index := q.findIdx (fun n => n.noticeId == notice.noticeId)
  if index < q.length then
    let lastNotice := q.getD (q.length - 1) default
    let q1 := q.dropLast
    if index < q1.length then heapifyDown (q1.set index lastNotice) index
    else q1
  else q

/-- The source's `addToTimingWheel`.  `Math.floor` of the real division is `Int.fdiv`;
the JS remainder operator keeps the dividend's sign, which is `Int.tmod`
(so a notice already visible for more than `currentTick` seconds lands on a
negative slot). -/
def addToTimingWheel (s : SchedulerState) (notice : ScheduledNotice) (now : Int) :
    SchedulerState :=
  let secondsUntilVisible := Int.fdiv (notice.visibleFrom - now) 1000
  let wheelSlot := Int.tmod (s.currentTick + secondsUntilVisible) 3600
  let cur := (mlookup s.timerWheel wheelSlot).getD []
  { s with timerWheel := mset s.timerWheel wheelSlot (cur ++ [notice]) }

/-- The source's `scheduleNotice`: heap insert, wheel entry, interval record. -/
def scheduleNotice (s : SchedulerState) (notice : ScheduledNotice) (now : Int) :
    SchedulerState :=
  let s1 := { s with dispatchQueue := insertIntoPriorityQueue s.dispatchQueue notice }
  let s2 := addToTimingWheel s1 notice now
  { s2 with timeIntervals := s2.timeIntervals ++
      [{ start := notice.visibleFrom, endTime := notice.visibleUntil,
         noticeId := notice.noticeId }] }

/-- The source's `createDeliveryCheckpoint`. -/
def createDeliveryCheckpoint (s : SchedulerState) (targetId : String)
    (notice : ScheduledNotice) (now : Int) : SchedulerState :=
  let checkpoint : DeliveryCheckpoint :=
    { targetId := targetId, noticeVersionId := notice.noticeId, status := .pending,
      lastAttemptAt := now, attempts := 0, nextRetryAt := some (now + 5 * 60 * 1000) }
  let cur := (mlookup s.deliveryCheckpoints targetId).getD []
  { s with deliveryCheckpoints := mset s.deliveryCheckpoints targetId (cur ++ [checkpoint]) }

/-- The `while (buffer.length > this.bufferSize) buffer.shift()` loop of
`addToDisplayBuffer`: while over capacity, drop the head (`shift`) and
re-test.  (An empty buffer never exceeds the capacity, so the loop body is
only ever entered on a nonempty list.) -/
def shrinkToSize : List ScheduledNotice → List ScheduledNotice
  | [] => []
  | x :: t => if (x :: t).length > bufferSize then shrinkToSize t else x :: t

/-- The body of `addToDisplayBuffer` acting on one channel's buffer:
emergency notices are unshifted at the head, others pushed at the tail,
then the size loop runs. -/
def addToBufferList (buffer : List ScheduledNotice) (notice : ScheduledNotice) :
    List ScheduledNotice :=
  let b1 := if notice.priority = EMERGENCY then notice :: buffer else buffer ++ [notice]
  shrinkToSize b1

/-- The source's `addToDisplayBuffer`. -/
def addToDisplayBuffer (s : SchedulerState) (displayId : String)
    (notice : ScheduledNotice) : SchedulerState :=
  let buffer := (mlookup s.displayBuffers displayId).getD []
  { s with displayBuffers := mset s.displayBuffers displayId (addToBufferList buffer notice) }

/-- The source's `activateNotice`: record as active, create checkpoints for the audience,
populate the channel buffers. -/
def activateNotice (s : SchedulerState) (notice : ScheduledNotice) (now : Int) :
    SchedulerState :=
  let s1 := { s with activeNotices := mset s.activeNotices notice.noticeId notice }
  let s2 := notice.targetAudience.foldl
    (fun st tid => createDeliveryCheckpoint st tid notice now) s1
  notice.channels.foldl (fun st ch => addToDisplayBuffer st ch notice) s2

/-- The source's `preemptWithEmergency`: hard-rejects non-emergency priorities (the
`throw` is `Except.error`), unshifts at the queue head and immediately
activates. -/
def preemptWithEmergency (s : SchedulerState) (emergencyNotice : ScheduledNotice)
    (now : Int) : Except String SchedulerState :=
  if emergencyNotice.priority ≠ EMERGENCY then .error "Only emergency notices can preempt"
  else
    let s1 := { s with dispatchQueue := emergencyNotice :: s.dispatchQueue }
    .ok (activateNotice s1 emergencyNotice now)

/-- The source's `processTimerWheel`: advance the tick, activate every notice in the
current slot whose `visibleFrom` has arrived, drop the slot.  Note the
source checks only `visibleFrom`, not `visibleUntil`. -/
def processTimerWheel (s : SchedulerState) (now : Int) : SchedulerState :=
  let newTick := Int.tmod (s.currentTick + 1) 3600
  let s1 := { s with currentTick := newTick }
  match mlookup s1.timerWheel newTick with
  | some notices =>
    let s2 := notices.foldl
      (fun st n => if n.visibleFrom ≤ now then activateNotice st n now else st) s1
    { s2 with timerWheel := mdel s2.timerWheel newTick }
  | none => s1

/-- The snapshot of queue entries `processScheduledNotices` collects before
activating. -/
def toActivate (s : SchedulerState) (now : Int) : List ScheduledNotice :=
  s.dispatchQueue.filter (fun n => n.visibleFrom ≤ now ∧ n.visibleUntil > now)

/-- One step of the `toActivate.forEach` loop. -/
def activateAndRemove (st : SchedulerState) (n : ScheduledNotice) (now : Int) :
    SchedulerState :=
  let st1 := activateNotice st n now
  { st1 with dispatchQueue := removeFromQueue st1.dispatchQueue n }

/-- The source's `processScheduledNotices` (the coarse periodic scan). -/
def processScheduledNotices (s : SchedulerState) (now : Int) : SchedulerState :=
  (toActivate s now).foldl (fun st n => activateAndRemove st n now) s

/-- The source's `getDisplayNotices`: buffer contents filtered to the currently visible
window. -/
def getDisplayNotices (s : SchedulerState) (displayId : String) (now : Int) :
    List ScheduledNotice :=
  ((mlookup s.displayBuffers displayId).getD []).filter
    (fun n => n.visibleFrom ≤ now ∧ n.visibleUntil > now)

/-- One operation of the heap interleavings of the spec: a `scheduleNotice`
insertion (its queue component) or a `getNextNotice` extraction. -/
inductive HeapOp
  | schedule (n : ScheduledNotice)
  | getNext

/-- Apply one heap operation to the dispatch queue. -/
def applyOp (q : List ScheduledNotice) : HeapOp → List ScheduledNotice
  | .schedule n => insertIntoPriorityQueue q n
  | .getNext => (getNextNotice q).2

/-- Apply an interleaving of heap operations, oldest first. -/
def applyOps (ops : List HeapOp) (q : List ScheduledNotice) : List ScheduledNotice :=
  ops.foldl applyOp q

/-- Repeatedly extract the minimum, fuel-bounded (each successful
`getNextNotice` shortens the queue by one, so `q.length` fuel drains it). -/
def drainFuel : Nat → List ScheduledNotice → List ScheduledNotice
  | 0, _ => []
  | fuel + 1, q =>
    match getNextNotice q with
    | (none, _) => []
    | (some n, q') => n :: drainFuel fuel q'

/-- The sequence obtained by repeatedly calling `getNextNotice` until the
queue is empty. -/
def drain (q : List ScheduledNotice) : List ScheduledNotice :=
  drainFuel q.length q

/-- The spec's extraction order: non-decreasing priority ordinal, ties in
non-decreasing `visibleFrom`. -/
def prioLex (a b : ScheduledNotice) : Prop :=
  a.priority < b.priority ∨ (a.priority = b.priority ∧ a.visibleFrom ≤ b.visibleFrom)

/-- The source's `j` is an array-heap child of `i`. -/
def childIdx (i j : Nat) : Prop := j = 2 * i + 1 ∨ j = 2 * i + 2

/-- The binary min-heap invariant of the dispatch queue (verification
predicate): every parent is `prioLex`-below its children. -/
def IsHeap (q : List ScheduledNotice) : Prop :=
  ∀ i j : Nat, j < q.length → childIdx i j → prioLex (q.getD i default) (q.getD j default)

/-- Verification invariant of `heapifyUp` at cursor `k`: every edge not
pointing into `k` holds, and `k`'s children (if any) are already above
`k`'s parent. -/
def UpInv (q : List ScheduledNotice) (k : Nat) : Prop :=
  (∀ i j : Nat, j < q.length → childIdx i j → j ≠ k →
    prioLex (q.getD i default) (q.getD j default)) ∧
  (k ≠ 0 → ∀ j : Nat, j < q.length → childIdx k j →
    prioLex (q.getD ((k - 1) / 2) default) (q.getD j default))

/-- Verification invariant of `heapifyDown` at cursor `k`: every edge not
leaving `k` holds, and `k`'s children are already above `k`'s parent. -/
def DownInv (q : List ScheduledNotice) (k : Nat) : Prop :=
  (∀ i j : Nat, j < q.length → childIdx i j → i ≠ k →
    prioLex (q.getD i default) (q.getD j default)) ∧
  (k ≠ 0 → ∀ j : Nat, j < q.length → childIdx k j →
    prioLex (q.getD ((k - 1) / 2) default) (q.getD j default))

end Sched

namespace ATS

/-- JS `Set.prototype.add` on an insertion-ordered duplicate-free list. -/
def sadd {α : Type} [DecidableEq α] (s : List α) (x : α) : List α :=
  if x ∈ s then s else s ++ [x]

/-- Roaring bitmaps (`RoaringBitmap32` from the external `roaring` npm
package, not part of src/) are modelled as sorted duplicate-free lists of
naturals: `add` inserts keeping ascending order, which is how the real
bitmap iterates. -/
def bmAdd : List Nat → Nat → List Nat
  | [], x => [x]
  | y :: ys, x =>
    if x < y then x :: y :: ys
    else if x = y then y :: ys
    else y :: bmAdd ys x

/-- The source's `RoaringBitmap32.or` (in-place union: every element of `b` is added to
`a`). -/
def bmOr (a b : List Nat) : List Nat := b.foldl bmAdd a

/-- The source's `RoaringBitmap32.and` (in-place intersection). -/
def bmAnd (a b : List Nat) : List Nat := a.filter (fun x => x ∈ b)

/-- Modelled from the spec: the `BloomFilter` class comes from the external
`bloom-filters` npm package, not from src/.  §4.1 describes it as a bit
array with `k` independent hash functions and no false negatives; the hash
functions are abstract parameters fixed at construction. -/
structure BloomFilter where
  size : Nat
  hashFns : List (String → Nat)
  bits : List Bool

/-- Modelled from the spec: `new BloomFilter(size, k)` starts with every bit
clear. -/
def newBloom (size : Nat) (hashFns : List (String → Nat)) : BloomFilter :=
  { size := size, hashFns := hashFns, bits := List.replicate size false }

/-- Modelled from the spec: `add` sets the bit selected by each hash
function (reduced modulo the bit-array size). -/
def bloomAdd (bf : BloomFilter) (key : String) : BloomFilter :=
  { bf with bits := bf.hashFns.foldl (fun bits h => bits.set (h key % bf.size) true) bf.bits }

/-- Modelled from the spec: `has` checks every selected bit. -/
def bloomHas (bf : BloomFilter) (key : String) : Bool :=
  bf.hashFns.all (fun h => bf.bits.getD (h key % bf.size) false)

/-- The source's `interface UserAttributes`. -/
structure UserAttributes where
  userId : String
  role : String
  department : String
  location : String
  language : String := ""
  deviceCapabilities : List String := []
  tags : List String := []
deriving DecidableEq, Repr

/-- The source's `interface AudienceRule`. -/
structure AudienceRule where
  id : String := ""
  expression : String := ""
  topics : List String := []
  departments : List String := []
  roles : List String := []
  locations : List String := []
  tags : List String := []
deriving DecidableEq, Repr

/-- The mutable fields of `class AudienceTargetingService`. -/
structure TargetingState where
  userAttributes : List (String × UserAttributes) := []
  topicSubscriptions : List (String × List String) := []
  noticeEligibility : List (String × AudienceRule) := []
  invertedIndex : List (String × List String) := []
  departmentBitmaps : List (String × List Nat) := []
  roleBitmaps : List (String × List Nat) := []
  locationBitmaps : List (String × List Nat) := []
  seenNoticesBloom : BloomFilter
  userIdToNumber : List (String × Nat) := []
  numberToUserId : List (Nat × String) := []
  nextUserId : Nat := 1

/-- The constructor: fresh maps plus `new BloomFilter(10000, 4)`; the four
hash functions of the external filter are abstract parameters here. -/
def newService (hashFns : List (String → Nat)) : TargetingState :=
  { seenNoticesBloom := newBloom 10000 hashFns }

/-- The source's `ensureBitmap` followed by `.add(numericId)`. -/
def bmapAdd (m : List (String × List Nat)) (key : String) (numericId : Nat) :
    List (String × List Nat) :=
  mset m key (bmAdd ((mlookup m key).getD []) numericId)

/-- The source's `registerUser`. -/
def registerUser (s : TargetingState) (ua : UserAttributes) : TargetingState :=
  let s1 := { s with userAttributes := mset s.userAttributes ua.userId ua }
  let s2 :=
    if (mlookup s1.userIdToNumber ua.userId).isSome then s1
    else
      { s1 with
        userIdToNumber := mset s1.userIdToNumber ua.userId s1.nextUserId,
        numberToUserId := mset s1.numberToUserId s1.nextUserId ua.userId,
        nextUserId := s1.nextUserId + 1 }
  let numericId := (mlookup s2.userIdToNumber ua.userId).getD 0
  let s3 := { s2 with departmentBitmaps := bmapAdd s2.departmentBitmaps ua.department numericId }
  let s4 := { s3 with roleBitmaps := bmapAdd s3.roleBitmaps ua.role numericId }
  let s5 := { s4 with locationBitmaps := bmapAdd s4.locationBitmaps ua.location numericId }
  ua.tags.foldl
    (fun st tag =>
      let posting := sadd ((mlookup st.invertedIndex tag).getD []) ua.userId
      { st with invertedIndex := mset st.invertedIndex tag posting })
    s5

/-- The per-dimension union loops of `findEligibleUsers`: union the bitmaps
of every listed value, skipping unknown values. -/
def unionAll (m : List (String × List Nat)) (keys : List String) : List Nat :=
  keys.foldl
    (fun u k =>
      match mlookup m k with
      | some b => bmOr u b
      | none => u)
    []

/-- The `eligibleBitmap` accumulator of `findEligibleUsers` after the
department block: the department union when departments were given, else
the fresh empty bitmap. -/
def stage1 (s : TargetingState) (rule : AudienceRule) : List Nat :=
  if rule.departments ≠ [] then unionAll s.departmentBitmaps rule.departments else []

/-- The accumulator after the role block: note the `size === 0` test
replaces an empty accumulator by the role union instead of intersecting
into it. -/
def stage2 (s : TargetingState) (rule : AudienceRule) : List Nat :=
  if rule.roles ≠ [] then
    let roleUnion := unionAll s.roleBitmaps rule.roles
    if (stage1 s rule).length = 0 then roleUnion else bmAnd (stage1 s rule) roleUnion
  else stage1 s rule

/-- The accumulator after the location block (same `size === 0`
replacement). -/
def stage3 (s : TargetingState) (rule : AudienceRule) : List Nat :=
  if rule.locations ≠ [] then
    let locationUnion := unionAll s.locationBitmaps rule.locations
    if (stage2 s rule).length = 0 then locationUnion else bmAnd (stage2 s rule) locationUnion
  else stage2 s rule

/-- The bitmap phase of `findEligibleUsers`: all users when every bitmap
dimension is empty; otherwise the three accumulator blocks. -/
def bitmapResult (s : TargetingState) (rule : AudienceRule) : List Nat :=
  if rule.departments = [] ∧ rule.roles = [] ∧ rule.locations = [] then
    s.userIdToNumber.foldl (fun b p => bmAdd b p.2) []
  else stage3 s rule

/-- The three bitmap criteria dimensions of an `AudienceRule`. -/
inductive BitmapDim
  | departments | roles | locations
deriving DecidableEq, Repr

/-- The values a rule lists in one bitmap dimension. -/
def dimValues (rule : AudienceRule) : BitmapDim → List String
  | .departments => rule.departments
  | .roles => rule.roles
  | .locations => rule.locations

/-- The rule with one value added to one bitmap dimension (tags fixed). -/
def addDimValue (rule : AudienceRule) (d : BitmapDim) (v : String) : AudienceRule :=
  match d with
  | .departments => { rule with departments := rule.departments ++ [v] }
  | .roles => { rule with roles := rule.roles ++ [v] }
  | .locations => { rule with locations := rule.locations ++ [v] }

/-- Verification predicate: evaluating the rule never hits the `size === 0`
replacement after a non-empty dimension — i.e. a replacement may only occur
because every earlier bitmap dimension was empty (the benign case that
merely starts the accumulation). -/
def noBadFallback (s : TargetingState) (rule : AudienceRule) : Prop :=
  (rule.roles ≠ [] → stage1 s rule = [] → rule.departments = []) ∧
  (rule.locations ≠ [] → stage2 s rule = [] → rule.departments = [] ∧ rule.roles = [])

/-- The source's `findEligibleUsers`: bitmap phase, then the optional exact-match tag
filter over the inverted index, then conversion back to user ids. -/
def findEligibleUsers (s : TargetingState) (rule : AudienceRule) : List String :=
  let eligibleBitmap := bitmapResult s rule
  if rule.tags ≠ [] then
    let tagEligibleUsers := rule.tags.foldl
      (fun acc tag =>
        match mlookup s.invertedIndex tag with
        | some usersWithTag => usersWithTag.foldl sadd acc
        | none => acc)
      []
    eligibleBitmap.foldl
      (fun res numericId =>
        match mlookup s.numberToUserId numericId with
        | some userId => if userId ∈ tagEligibleUsers then res ++ [userId] else res
        | none => res)
      []
  else
    eligibleBitmap.foldl
      (fun res numericId =>
        match mlookup s.numberToUserId numericId with
        | some userId => res ++ [userId]
        | none => res)
      []

/-- The source's `hasUserSeenNotice`. -/
def hasUserSeenNotice (s : TargetingState) (userId noticeId : String) : Bool :=
  bloomHas s.seenNoticesBloom (userId ++ ":" ++ noticeId)

/-- The source's `markNoticeSeen`. -/
def markNoticeSeen (s : TargetingState) (userId noticeId : String) : TargetingState :=
  { s with seenNoticesBloom := bloomAdd s.seenNoticesBloom (userId ++ ":" ++ noticeId) }

/-- A batch of `markNoticeSeen` calls, in order. -/
def applyMarks (s : TargetingState) (calls : List (String × String)) : TargetingState :=
  calls.foldl (fun st c => markNoticeSeen st c.1 c.2) s

end ATS

/-! ## Concrete states used by counterexamples and witnesses -/

/-- An ARCHIVED notice context whose `lastModifiedAt` is the epoch. -/
def c5ctx : NSM.NoticeContext :=
  { id := "n5", currentState := .ARCHIVED, createdAt := 0, priority := 3,
    authorId := "author", lastModifiedAt := 0 }

/-- A machine holding `n5` in ARCHIVED state. -/
def c5m : NSM.Machine :=
  { stateLog := [], noticeStates := [("n5", .ARCHIVED)], noticeContexts := [("n5", c5ctx)] }

/-- A reinstate timestamp 31 days after `lastModifiedAt`. -/
def c5ts : Int := 31 * NSM.msPerDay

/-- The moderator's reinstate call of Scenario C. -/
def c5modInput : NSM.TransitionInput :=
  { event := .REINSTATE, timestamp := c5ts, userId := "mod1", userRole := "moderator" }

/-- The admin's identical reinstate call. -/
def c5adminInput : NSM.TransitionInput :=
  { event := .REINSTATE, timestamp := c5ts, userId := "adm1", userRole := "admin" }

/-- A draft context for exercising `transition` on an initialized notice. -/
def c1ctx : NSM.NoticeContext :=
  { id := "n1", currentState := .DRAFT, createdAt := 0, priority := 3,
    authorId := "author", lastModifiedAt := 0 }

/-- A machine with `n1` initialized in DRAFT. -/
def c1m : NSM.Machine := NSM.initializeNotice {} "n1" c1ctx "t0" 0

/-- An event with no DRAFT table entry (`expire` from DRAFT). -/
def c1input : NSM.TransitionInput :=
  { event := .EXPIRE, timestamp := 5, userId := "u1", userRole := "publisher" }

/-- A dummy input for the unknown-notice fault. -/
def c9input : NSM.TransitionInput :=
  { event := .SUBMIT, timestamp := 0, userId := "u1", userRole := "publisher" }

/-- One NORMAL-priority buffer entry. -/
def c8entry : Sched.ScheduledNotice :=
  { noticeId := "norm", priority := Sched.NORMAL, visibleFrom := 0, visibleUntil := 1000000 }

/-- A channel buffer already at the 100-entry capacity. -/
def c8full : List Sched.ScheduledNotice := List.replicate 100 c8entry

/-- The EMERGENCY notice being inserted at capacity. -/
def c8em : Sched.ScheduledNotice :=
  { noticeId := "em8", priority := Sched.EMERGENCY, visibleFrom := 0, visibleUntil := 1000000 }

/-- An EMERGENCY notice used to exercise `preemptWithEmergency`. -/
def c6em : Sched.ScheduledNotice :=
  { noticeId := "em6", priority := Sched.EMERGENCY, visibleFrom := 0, visibleUntil := 1000,
    targetAudience := ["u1"], channels := ["main"] }

/-- The scheduler state after preempting with `c6em` from the initial
state. -/
def c6state : Sched.SchedulerState :=
  (Sched.preemptWithEmergency {} c6em 0).toOption.getD {}

/-- The source's `n` consecutive wheel ticks (`processTimerWheel` runs on a 1-second
interval timer). -/
def tickN (s : Sched.SchedulerState) (now : Int) : Nat → Sched.SchedulerState
  | 0 => s
  | n + 1 => Sched.processTimerWheel (tickN s now n) now

/-- The wall-clock instant at which the expired unit is scheduled. -/
def c7now : Int := 10000000

/-- A unit whose whole visibility window, `visibleUntil` included, lies in
the past at scheduling time (`visibleFrom` 3599 s ago, `visibleUntil` 1 s
ago). -/
def c7notice : Sched.ScheduledNotice :=
  { noticeId := "x7", priority := Sched.NORMAL, visibleFrom := c7now - 3599 * 1000,
    visibleUntil := c7now - 1000, targetAudience := [], channels := ["main"] }

/-- The scheduler after 3599 wheel ticks from the initial state followed by
`scheduleNotice` of the expired unit: the unit's negative visibility offset
lands it on wheel slot 0. -/
def c7s1 : Sched.SchedulerState := Sched.scheduleNotice (tickN {} 0 3599) c7notice c7now

/-- One further wheel tick: the tick pointer wraps to slot 0 and processes
the expired unit. -/
def c7s2 : Sched.SchedulerState := Sched.processTimerWheel c7s1 c7now

/-- An already-expired pending entry, for the periodic-scan half of C7. -/
def c7exp : Sched.ScheduledNotice :=
  { noticeId := "exp7", priority := Sched.NORMAL, visibleFrom := 0, visibleUntil := 500,
    channels := ["main"] }

/-- A scheduler whose queue holds only the expired entry. -/
def c7scanState : Sched.SchedulerState := { dispatchQueue := [c7exp] }

/-- A pending notice whose window is open at scan time. -/
def c6scanNotice : Sched.ScheduledNotice :=
  { noticeId := "a6", priority := Sched.NORMAL, visibleFrom := 0, visibleUntil := 2000,
    channels := ["main"] }

/-- A scheduler whose queue holds only the open-window entry. -/
def c6scanState : Sched.SchedulerState := { dispatchQueue := [c6scanNotice] }

/-- Registered user: engineering developer. -/
def c3alice : ATS.UserAttributes :=
  { userId := "alice", role := "dev", department := "Eng", location := "NYC" }

/-- Registered user: sales developer. -/
def c3bob : ATS.UserAttributes :=
  { userId := "bob", role := "dev", department := "Sales", location := "NYC" }

/-- A targeting service with the two users registered (hash functions are
irrelevant here). -/
def c3s : ATS.TargetingState :=
  ATS.registerUser (ATS.registerUser (ATS.newService []) c3alice) c3bob

/-- A rule whose department list names only an unknown department. -/
def c3rule1 : ATS.AudienceRule := { departments := ["HR"], roles := ["dev"] }

/-- The source's `c3rule1` with one more department value. -/
def c3rule2 : ATS.AudienceRule := { departments := ["HR", "Sales"], roles := ["dev"] }

/-- A rule naming a populated department, for the amended-monotonicity
witness. -/
def c3rule1eng : ATS.AudienceRule := { departments := ["Eng"], roles := ["dev"] }

/-! ## Association-list facts shared by several claims -/

theorem mlookup_mset_self {α β : Type} [DecidableEq α] (m : List (α × β)) (k : α) (v : β) :
    mlookup (mset m k v) k = some v := by
  induction m with
  | nil => simp [mlookup, mset]
  | cons p t ih =>
    by_cases h : p.1 = k
    · simp [mlookup, mset, h]
    · simp [mlookup, mset, h, ih]

theorem mlookup_mset_ne {α β : Type} [DecidableEq α] (m : List (α × β)) (k k' : α) (v : β)
    (h : k ≠ k') : mlookup (mset m k v) k' = mlookup m k' := by
  induction m with
  | nil => simp [mlookup, mset, h]
  | cons p t ih =>
    by_cases hp : p.1 = k
    · simp [mlookup, mset, hp, h]
    · simp [mlookup, mset, hp, ih]

/-! ## Lifecycle state machine claims -/

/-- The `while` loop of `validateFSM` stops exactly at a fixpoint of one
pass; ten iterations have reached that fixpoint. -/
theorem reachStep_fixpoint : NSM.reachStep NSM.reachableStates = NSM.reachableStates := by
  decide

/-- C10: `validateFSM` on the constructor's transition table reports
`isValid = true` with no issues; all ten states are reachable from DRAFT
under the table closure and every state (ARCHIVED and REJECTED included)
has an outgoing transition. -/
theorem C10_validateFSM_clean :
    NSM.validateFSM = { isValid := true, issues := [] } ∧
    NSM.allStates.length = 10 ∧
    (∀ s ∈ NSM.allStates, s ∈ NSM.reachableStates) ∧
    (∀ s ∈ NSM.allStates, NSM.hasNoOutgoing s = false) := by
  decide

/-- C9 (counterexample): calling `transition` with a never-initialized
notice id takes the `throw new Error` path (modelled `Except.error`), not a
typed `StateTransition` result: the claimed typed not-found result value is
not what the code produces. -/
theorem C9_unknown_id_faults :
    NSM.transition {} "ghost" c9input "t1" = .error "Notice ghost not found" := by
  rfl

/-- C9 (amended): for every machine whose state map lacks the id,
`transition` raises the `Notice <id> not found` error — an uncaught fault,
not a typed result value. -/
theorem C9_unknown_id_error (m : NSM.Machine) (noticeId : String)
    (input : NSM.TransitionInput) (transId : String)
    (h : mlookup m.noticeStates noticeId = none) :
    NSM.transition m noticeId input transId =
      .error ("Notice " ++ noticeId ++ " not found") := by
  unfold NSM.transition
  rw [h]

theorem C9_unknown_id_error_witness :
    NSM.transition {} "ghost" c9input "t1" = .error ("Notice " ++ "ghost" ++ " not found") :=
  C9_unknown_id_error {} "ghost" c9input "t1" (by decide)

/-- C1: on an initialized notice, every `transition` call appends exactly
one audit record; a table miss or a guard rejection yields `isValid = false`
with the state and context maps untouched; only a guard-approved transition
rewrites `currentState` (and the context). -/
theorem C1_transition_audit (m : NSM.Machine) (noticeId : String)
    (input : NSM.TransitionInput) (transId : String) (st : NSM.NoticeState)
    (ctx : NSM.NoticeContext)
    (hs : mlookup m.noticeStates noticeId = some st)
    (hc : mlookup m.noticeContexts noticeId = some ctx) :
    ∃ rec m', NSM.transition m noticeId input transId = .ok (rec, m') ∧
      m'.stateLog = m.stateLog ++ [rec] ∧
      (NSM.getNextState st input.event = none →
        rec.isValid = false ∧ rec.toState = st ∧
        m'.noticeStates = m.noticeStates ∧ m'.noticeContexts = m.noticeContexts) ∧
      (∀ ns, NSM.getNextState st input.event = some ns →
        (NSM.evaluateGuards st ns input ctx).allowed = false →
        rec.isValid = false ∧ rec.toState = st ∧
        m'.noticeStates = m.noticeStates ∧ m'.noticeContexts = m.noticeContexts) ∧
      (∀ ns, NSM.getNextState st input.event = some ns →
        (NSM.evaluateGuards st ns input ctx).allowed = true →
        rec.isValid = true ∧ rec.toState = ns ∧
        m'.noticeStates = mset m.noticeStates noticeId ns ∧
        m'.noticeContexts = mset m.noticeContexts noticeId
          (NSM.updateContextAfterTransition ctx ns input)) := by
  simp only [NSM.transition, hs, hc]
  cases hgn : NSM.getNextState st input.event with
  | none =>
    refine ⟨_, _, rfl, rfl, fun _ => ⟨rfl, rfl, rfl, rfl⟩, ?_, ?_⟩ <;>
      · intro ns hns
        cases hns
  | some ns =>
    by_cases hga : (NSM.evaluateGuards st ns input ctx).allowed = true
    · simp only [hga, if_true]
      refine ⟨_, _, rfl, rfl, ?_, ?_, ?_⟩
      · intro h
        cases h
      · intro ns' hns' hga'
        cases hns'
        rw [hga] at hga'
        cases hga'
      · intro ns' hns' _
        cases hns'
        exact ⟨rfl, rfl, rfl, rfl⟩
    · rw [Bool.not_eq_true] at hga
      simp only [hga, Bool.false_eq_true, if_false]
      refine ⟨_, _, rfl, rfl, ?_, ?_, ?_⟩
      · intro h
        cases h
      · intro ns' hns' _
        cases hns'
        exact ⟨rfl, rfl, rfl, rfl⟩
      · intro ns' hns' hga'
        cases hns'
        rw [hga] at hga'
        cases hga'

theorem C1_transition_audit_witness :
    ∃ rec m', NSM.transition c1m "n1" c1input "t1" = .ok (rec, m') ∧
      m'.stateLog = c1m.stateLog ++ [rec] ∧
      (NSM.getNextState .DRAFT c1input.event = none →
        rec.isValid = false ∧ rec.toState = .DRAFT ∧
        m'.noticeStates = c1m.noticeStates ∧ m'.noticeContexts = c1m.noticeContexts) ∧
      (∀ ns, NSM.getNextState .DRAFT c1input.event = some ns →
        (NSM.evaluateGuards .DRAFT ns c1input c1ctx).allowed = false →
        rec.isValid = false ∧ rec.toState = .DRAFT ∧
        m'.noticeStates = c1m.noticeStates ∧ m'.noticeContexts = c1m.noticeContexts) ∧
      (∀ ns, NSM.getNextState .DRAFT c1input.event = some ns →
        (NSM.evaluateGuards .DRAFT ns c1input c1ctx).allowed = true →
        rec.isValid = true ∧ rec.toState = ns ∧
        m'.noticeStates = mset c1m.noticeStates "n1" ns ∧
        m'.noticeContexts = mset c1m.noticeContexts "n1"
          (NSM.updateContextAfterTransition c1ctx ns c1input)) :=
  C1_transition_audit c1m "n1" c1input "t1" .DRAFT c1ctx (by decide) (by decide)

/-- C5 (counterexample): on an ARCHIVED notice last modified 31 days ago, a
moderator's `reinstate` is indeed rejected, but the recorded reason is the
general admin-only reinstate guard, not the 30-day-window message the claim
requires (the role guard precedes the 30-day check, which can therefore
never be the reported reason for a non-admin). -/
theorem C5_moderator_reason_is_generic :
    ((NSM.transition c5m "n5" c5modInput "t1").toOption.map
        (fun p => (p.1.isValid, p.1.reason))) =
      some (false, some "Only admins can reinstate notices") ∧
    ("Only admins can reinstate notices" : String) ≠
      "Cannot reinstate notices archived for more than 30 days without admin privileges" := by
  constructor
  · decide
  · decide

/-- C5 (amended): the moderator's reinstate on a 31-day-old ARCHIVED notice
is rejected by the general admin-only reinstate guard (with that guard's
reason) and leaves the state untouched, while the identical call by an
admin succeeds and moves the notice to REINSTATED. -/
theorem C5_reinstate_role_split (m : NSM.Machine) (noticeId : String)
    (ctx : NSM.NoticeContext) (ts : Int) (modId admId tid1 tid2 : String)
    (hs : mlookup m.noticeStates noticeId = some .ARCHIVED)
    (hc : mlookup m.noticeContexts noticeId = some ctx)
    (_hdays : ts - ctx.lastModifiedAt > 30 * NSM.msPerDay) :
    (∃ rec m', NSM.transition m noticeId
        { event := .REINSTATE, timestamp := ts, userId := modId, userRole := "moderator" }
        tid1 = .ok (rec, m') ∧
      rec.isValid = false ∧ rec.reason = some "Only admins can reinstate notices" ∧
      m'.noticeStates = m.noticeStates) ∧
    (∃ rec m', NSM.transition m noticeId
        { event := .REINSTATE, timestamp := ts, userId := admId, userRole := "admin" }
        tid2 = .ok (rec, m') ∧
      rec.isValid = true ∧ rec.toState = .REINSTATED ∧
      mlookup m'.noticeStates noticeId = some .REINSTATED) := by
  have hgn : NSM.getNextState .ARCHIVED .REINSTATE = some .REINSTATED := by decide
  constructor
  · simp only [NSM.transition, hs, hc]
    exact ⟨_, _, rfl, rfl, rfl, rfl⟩
  · have hguard : NSM.evaluateGuards .ARCHIVED .REINSTATED
        { event := .REINSTATE, timestamp := ts, userId := admId, userRole := "admin" }
        ctx = { allowed := true } := by
      unfold NSM.evaluateGuards
      simp
    simp only [NSM.transition, hs, hc, hgn, hguard]
    exact ⟨_, _, rfl, rfl, rfl, mlookup_mset_self _ _ _⟩

theorem C5_reinstate_role_split_witness :
    (∃ rec m', NSM.transition c5m "n5"
        { event := .REINSTATE, timestamp := c5ts, userId := "mod1", userRole := "moderator" }
        "t1" = .ok (rec, m') ∧
      rec.isValid = false ∧ rec.reason = some "Only admins can reinstate notices" ∧
      m'.noticeStates = c5m.noticeStates) ∧
    (∃ rec m', NSM.transition c5m "n5"
        { event := .REINSTATE, timestamp := c5ts, userId := "adm1", userRole := "admin" }
        "t2" = .ok (rec, m') ∧
      rec.isValid = true ∧ rec.toState = .REINSTATED ∧
      mlookup m'.noticeStates "n5" = some .REINSTATED) :=
  C5_reinstate_role_split c5m "n5" c5ctx c5ts "mod1" "adm1" "t1" "t2"
    (by decide) (by decide) (by decide)

/-! ## Scheduler claims: display buffer and preemption -/

/-- C8: evaluating `addToDisplayBuffer`'s insertion on a buffer already at
capacity shows the failing input of the code bug: the emergency notice is
unshifted at the head and then immediately removed again by the overflow
loop (whose `shift()` evicts the head, i.e. the emergency itself, rather
than the oldest entry), leaving the buffer exactly as before. -/
theorem C8_emergency_evicted_at_capacity :
    c8full.length = Sched.bufferSize ∧
    Sched.addToBufferList c8full c8em = c8full ∧
    c8em ∉ c8full := by
  refine ⟨by decide, by decide, by decide⟩

/-- C6 (counterexample): `preemptWithEmergency` successfully activates the
emergency notice, yet the pending priority queue afterwards still holds an
entry with that notice's id (the unshifted entry is never removed), so the
claimed no-entry-after-activation property fails. -/
theorem C6_preempt_leaves_queue_entry :
    Sched.preemptWithEmergency ({} : Sched.SchedulerState) c6em 0 = .ok c6state ∧
    mlookup c6state.activeNotices "em6" = some c6em ∧
    c6state.dispatchQueue.map Sched.ScheduledNotice.noticeId = ["em6"] := by
  refine ⟨rfl, by decide, by decide⟩

/-! ## C7: expired units, the wheel and the scan -/

/-- With an empty timing wheel a tick only advances the pointer, so `n`
ticks from the initial state leave `currentTick = n` (for `n` within one
wheel revolution). -/
theorem tickN_empty_wheel (now : Int) (n : Nat) (hn : n ≤ 3599) :
    tickN ({} : Sched.SchedulerState) now n = { currentTick := (n : Int) } := by
  induction n with
  | zero => rfl
  | succ k ih =>
    have hk : k ≤ 3599 := Nat.le_of_succ_le hn
    have harith : Int.tmod ((k : Int) + 1) 3600 = (k : Int) + 1 :=
      Int.tmod_eq_of_lt (by omega) (by omega)
    show Sched.processTimerWheel (tickN {} now k) now = _
    rw [ih hk]
    simp [Sched.processTimerWheel, mlookup, harith]

/-- C7 (counterexample): a unit whose `visibleUntil` is already past at
scheduling time is nevertheless activated by a later wheel tick — the tick
checks only `visibleFrom` — landing in the active set and the channel
buffer.  (Trace: 3599 empty ticks, `scheduleNotice` of the expired unit
onto slot 0, one further tick.) -/
theorem C7_expired_unit_activated_by_wheel :
    c7notice.visibleUntil < c7now ∧
    mlookup c7s2.activeNotices "x7" = some c7notice ∧
    mlookup c7s2.displayBuffers "main" = some [c7notice] := by
  have h0 : tickN ({} : Sched.SchedulerState) 0 3599 = { currentTick := ((3599 : Nat) : Int) } :=
    tickN_empty_wheel 0 3599 (by omega)
  refine ⟨by decide, ?_, ?_⟩
  · show mlookup (Sched.processTimerWheel
        (Sched.scheduleNotice (tickN {} 0 3599) c7notice c7now) c7now).activeNotices "x7" =
      some c7notice
    rw [h0]
    decide
  · show mlookup (Sched.processTimerWheel
        (Sched.scheduleNotice (tickN {} 0 3599) c7notice c7now) c7now).displayBuffers "main" =
      some [c7notice]
    rw [h0]
    decide

theorem shrinkToSize_subset (b : List Sched.ScheduledNotice) :
    ∀ x ∈ Sched.shrinkToSize b, x ∈ b := by
  induction b with
  | nil => intro x hx; exact hx
  | cons y t ih =>
    intro x hx
    simp only [Sched.shrinkToSize] at hx
    split_ifs at hx
    · exact List.mem_cons_of_mem _ (ih x hx)
    · exact hx

theorem addToBufferList_mem {b : List Sched.ScheduledNotice} {n x : Sched.ScheduledNotice}
    (hx : x ∈ Sched.addToBufferList b n) : x = n ∨ x ∈ b := by
  simp only [Sched.addToBufferList] at hx
  have hx2 := shrinkToSize_subset _ x hx
  split_ifs at hx2
  · rcases List.mem_cons.mp hx2 with h | h
    · exact Or.inl h
    · exact Or.inr h
  · rcases List.mem_append.mp hx2 with h | h
    · exact Or.inr h
    · exact Or.inl (List.mem_singleton.mp h)

theorem foldl_ckpt_activeNotices (L : List String) (st : Sched.SchedulerState)
    (n : Sched.ScheduledNotice) (now : Int) :
    (L.foldl (fun st2 tid => Sched.createDeliveryCheckpoint st2 tid n now) st).activeNotices =
      st.activeNotices := by
  induction L generalizing st with
  | nil => rfl
  | cons a t ih =>
    rw [List.foldl_cons, ih]
    rfl

theorem foldl_ckpt_displayBuffers (L : List String) (st : Sched.SchedulerState)
    (n : Sched.ScheduledNotice) (now : Int) :
    (L.foldl (fun st2 tid => Sched.createDeliveryCheckpoint st2 tid n now) st).displayBuffers =
      st.displayBuffers := by
  induction L generalizing st with
  | nil => rfl
  | cons a t ih =>
    rw [List.foldl_cons, ih]
    rfl

theorem foldl_buffer_activeNotices (L : List String) (st : Sched.SchedulerState)
    (n : Sched.ScheduledNotice) :
    (L.foldl (fun st2 ch => Sched.addToDisplayBuffer st2 ch n) st).activeNotices =
      st.activeNotices := by
  induction L generalizing st with
  | nil => rfl
  | cons a t ih =>
    rw [List.foldl_cons, ih]
    rfl

theorem activateNotice_activeNotices (st : Sched.SchedulerState)
    (n : Sched.ScheduledNotice) (now : Int) :
    (Sched.activateNotice st n now).activeNotices = mset st.activeNotices n.noticeId n := by
  simp only [Sched.activateNotice]
  rw [foldl_buffer_activeNotices, foldl_ckpt_activeNotices]

theorem addToDisplayBuffer_buffer_mem {st : Sched.SchedulerState} {ch ch' : String}
    {n x : Sched.ScheduledNotice}
    (hx : x ∈ (mlookup (Sched.addToDisplayBuffer st ch n).displayBuffers ch').getD []) :
    x = n ∨ x ∈ (mlookup st.displayBuffers ch').getD [] := by
  simp only [Sched.addToDisplayBuffer] at hx
  by_cases h : ch = ch'
  · subst h
    rw [mlookup_mset_self] at hx
    exact addToBufferList_mem hx
  · rw [mlookup_mset_ne _ _ _ _ h] at hx
    exact Or.inr hx

theorem foldl_buffer_mem (L : List String) (st : Sched.SchedulerState)
    (n x : Sched.ScheduledNotice) (ch' : String)
    (hx : x ∈ (mlookup (L.foldl (fun st2 ch => Sched.addToDisplayBuffer st2 ch n)
        st).displayBuffers ch').getD []) :
    x = n ∨ x ∈ (mlookup st.displayBuffers ch').getD [] := by
  induction L generalizing st with
  | nil => exact Or.inr hx
  | cons a t ih =>
    rw [List.foldl_cons] at hx
    rcases ih _ hx with h | h
    · exact Or.inl h
    · exact addToDisplayBuffer_buffer_mem h

theorem activateNotice_buffer_mem {st : Sched.SchedulerState} {n x : Sched.ScheduledNotice}
    {now : Int} {ch' : String}
    (hx : x ∈ (mlookup (Sched.activateNotice st n now).displayBuffers ch').getD []) :
    x = n ∨ x ∈ (mlookup st.displayBuffers ch').getD [] := by
  simp only [Sched.activateNotice] at hx
  rcases foldl_buffer_mem _ _ _ _ _ hx with h | h
  · exact Or.inl h
  · rw [foldl_ckpt_displayBuffers] at h
    exact Or.inr h

theorem foldl_activateAndRemove_preserves (L : List Sched.ScheduledNotice)
    (st : Sched.SchedulerState) (now : Int) (id : String)
    (hL : ∀ n ∈ L, n.noticeId ≠ id) :
    mlookup ((L.foldl (fun st2 n => Sched.activateAndRemove st2 n now) st).activeNotices) id =
      mlookup st.activeNotices id ∧
    (∀ ch x, x ∈ (mlookup ((L.foldl (fun st2 n => Sched.activateAndRemove st2 n now)
          st).displayBuffers) ch).getD [] →
      x.noticeId = id → x ∈ (mlookup st.displayBuffers ch).getD []) := by
  induction L generalizing st with
  | nil => exact ⟨rfl, fun ch x hx _ => hx⟩
  | cons a t ih =>
    have ha : a.noticeId ≠ id := hL a (List.mem_cons_self a t)
    have ht : ∀ n ∈ t, n.noticeId ≠ id := fun n hn => hL n (List.mem_cons_of_mem _ hn)
    rw [List.foldl_cons]
    obtain ⟨ih1, ih2⟩ := ih (Sched.activateAndRemove st a now) ht
    refine ⟨?_, ?_⟩
    · rw [ih1]
      show mlookup (Sched.activateNotice st a now).activeNotices id = _
      rw [activateNotice_activeNotices, mlookup_mset_ne _ _ _ _ ha]
    · intro ch x hx hxid
      have hmid := ih2 ch x hx hxid
      have hmid2 : x ∈ (mlookup (Sched.activateNotice st a now).displayBuffers ch).getD [] :=
        hmid
      rcases activateNotice_buffer_mem hmid2 with h | h
      · exact absurd (h ▸ hxid) ha
      · exact h

/-- C7 (amended): the expired-window part of the claim that does hold — the
coarse periodic scan (`processScheduledNotices`) checks `visibleUntil` and
therefore never activates an id all of whose queue entries are expired: the
active-set entry for that id is unchanged and no new buffer entry with that
id appears.  The wheel tick offers no such guarantee (see the
counterexample). -/
theorem C7_scan_never_activates_expired (s : Sched.SchedulerState) (now : Int) (id : String)
    (h : ∀ n ∈ s.dispatchQueue, n.noticeId = id → ¬ now < n.visibleUntil) :
    mlookup (Sched.processScheduledNotices s now).activeNotices id =
      mlookup s.activeNotices id ∧
    (∀ ch x, x ∈ (mlookup (Sched.processScheduledNotices s now).displayBuffers ch).getD [] →
      x.noticeId = id → x ∈ (mlookup s.displayBuffers ch).getD []) := by
  have hL : ∀ n ∈ Sched.toActivate s now, n.noticeId ≠ id := by
    intro n hn hid
    rw [Sched.toActivate, List.mem_filter] at hn
    obtain ⟨hmem, hpred⟩ := hn
    rw [decide_eq_true_eq] at hpred
    exact h n hmem hid hpred.2
  unfold Sched.processScheduledNotices
  exact foldl_activateAndRemove_preserves _ s now id hL

/-! ## Heap order facts -/

theorem prioLex_refl (a : Sched.ScheduledNotice) : Sched.prioLex a a := by
  unfold Sched.prioLex
  omega

theorem prioLex_trans {a b c : Sched.ScheduledNotice}
    (h1 : Sched.prioLex a b) (h2 : Sched.prioLex b c) : Sched.prioLex a c := by
  unfold Sched.prioLex at *
  omega

theorem comparePriority_lt {a b : Sched.ScheduledNotice}
    (h : Sched.comparePriority a b < 0) : Sched.prioLex a b := by
  unfold Sched.comparePriority at h
  unfold Sched.prioLex
  split_ifs at h <;> omega

theorem comparePriority_not_lt {a b : Sched.ScheduledNotice}
    (h : ¬ Sched.comparePriority a b < 0) : Sched.prioLex b a := by
  unfold Sched.comparePriority at h
  unfold Sched.prioLex
  split_ifs at h <;> omega

theorem comparePriority_lt_trans_le {a b c : Sched.ScheduledNotice}
    (h1 : Sched.comparePriority a b < 0) (h2 : Sched.prioLex b c) : Sched.prioLex a c :=
  prioLex_trans (comparePriority_lt h1) h2

/-! ## `getD`/`set` helpers and permutation machinery -/

theorem getD_set_self {α : Type} (l : List α) (m : Nat) (a d : α) (h : m < l.length) :
    (l.set m a).getD m d = a := by
  rw [List.getD_eq_getElem?_getD, List.getElem?_eq_getElem (by simpa using h)]
  simp [List.getElem_set_self]

theorem getD_set_ne {α : Type} (l : List α) (m k : Nat) (a d : α) (h : k ≠ m) :
    (l.set m a).getD k d = l.getD k d := by
  rw [List.getD_eq_getElem?_getD, List.getD_eq_getElem?_getD,
    List.getElem?_set_ne (fun he => h he.symm)]

theorem set_getD_id {α : Type} (l : List α) (i : Nat) (d : α) (h : i < l.length) :
    l.set i (l.getD i d) = l := by
  apply List.ext_getElem (by simp)
  intro k hk1 hk2
  by_cases hik : i = k
  · subst hik
    rw [List.getElem_set_self, List.getD_eq_getElem?_getD, List.getElem?_eq_getElem h]
    rfl
  · rw [List.getElem_set_ne hik]

theorem getD_swapQ {q : List Sched.ScheduledNotice} {i j k : Nat}
    (hi : i < q.length) (_hj : j < q.length) :
    (Sched.swapQ q i j).getD k default =
      if k = j then q.getD i default
      else if k = i then q.getD j default
      else q.getD k default := by
  unfold Sched.swapQ
  by_cases hkj : k = j
  · subst hkj
    rw [getD_set_self _ _ _ _ (by simpa using _hj), if_pos rfl]
  · rw [getD_set_ne _ _ _ _ _ hkj, if_neg hkj]
    by_cases hki : k = i
    · subst hki
      rw [getD_set_self _ _ _ _ hi, if_pos rfl]
    · rw [getD_set_ne _ _ _ _ _ hki, if_neg hki]

theorem length_swapQ (q : List Sched.ScheduledNotice) (i j : Nat) :
    (Sched.swapQ q i j).length = q.length := by
  simp [Sched.swapQ]

theorem getD_cons_set_perm {α : Type} (d : α) (t : List α) (m : Nat) (a : α)
    (h : m < t.length) : (t.getD m d :: t.set m a).Perm (a :: t) := by
  induction t generalizing m with
  | nil => cases h
  | cons c t' ih =>
    cases m with
    | zero => exact List.Perm.swap a c t'
    | succ k =>
      have hk : k < t'.length := by simpa using h
      exact ((List.Perm.swap c _ _).trans (((ih k hk).cons c).trans (List.Perm.swap a c t')))

theorem swapQ_perm (q : List Sched.ScheduledNotice) (i j : Nat)
    (hi : i < q.length) (hj : j < q.length) : (Sched.swapQ q i j).Perm q := by
  by_cases hij : i = j
  · subst hij
    unfold Sched.swapQ
    rw [List.set_set, set_getD_id _ _ _ hi]
  · have hj' : j < (q.set i (q.getD j default)).length := by simpa using hj
    have h3 := getD_cons_set_perm default (q.set i (q.getD j default)) j
      (q.getD i default) hj'
    rw [getD_set_ne _ _ _ _ _ (fun he => hij he.symm)] at h3
    have h2 := getD_cons_set_perm default q i (q.getD j default) hi
    exact List.Perm.cons_inv (h3.trans h2)

theorem heapifyDown_perm (q : List Sched.ScheduledNotice) (i : Nat) :
    (Sched.heapifyDown q i).Perm q := by
  suffices H : ∀ (fuel : Nat) (q : List Sched.ScheduledNotice) (i : Nat),
      q.length - i ≤ fuel → (Sched.heapifyDown q i).Perm q from H (q.length - i) q i le_rfl
  intro fuel
  induction fuel with
  | zero =>
    intro q i h
    have hd : ¬ Sched.downTarget q i ≠ i := by
      intro hne
      have h1 := Sched.downTarget_gt hne
      have h2 := Sched.downTarget_lt_length hne
      omega
    rw [Sched.heapifyDown]
    rw [dif_neg hd]
  | succ k ih =>
    intro q i h
    by_cases hd : Sched.downTarget q i ≠ i
    · have h1 := Sched.downTarget_gt hd
      have h2 := Sched.downTarget_lt_length hd
      rw [Sched.heapifyDown, dif_pos hd]
      refine (ih _ _ ?_).trans (swapQ_perm q i _ (by omega) h2)
      rw [length_swapQ]
      omega
    · rw [Sched.heapifyDown, dif_neg hd]

theorem heapifyUp_perm (q : List Sched.ScheduledNotice) (i : Nat) (hi : i < q.length) :
    (Sched.heapifyUp q i).Perm q := by
  induction i using Nat.strong_induction_on generalizing q with
  | _ i ih =>
    rw [Sched.heapifyUp]
    by_cases h0 : i = 0
    · rw [if_pos h0]
    · rw [if_neg h0]
      have hp : (i - 1) / 2 < i := by omega
      by_cases hc : Sched.comparePriority (q.getD i default) (q.getD ((i - 1) / 2) default) < 0
      · rw [if_pos hc]
        refine (ih _ hp _ ?_).trans (swapQ_perm q i _ hi (by omega))
        rw [length_swapQ]
        omega
      · rw [if_neg hc]

theorem length_heapifyDown (q : List Sched.ScheduledNotice) (i : Nat) :
    (Sched.heapifyDown q i).length = q.length :=
  (heapifyDown_perm q i).length_eq

theorem length_heapifyUp (q : List Sched.ScheduledNotice) (i : Nat) (hi : i < q.length) :
    (Sched.heapifyUp q i).length = q.length :=
  (heapifyUp_perm q i hi).length_eq

/-! ## Heap invariant preservation -/

theorem comparePriority_lt_lt_trans {a b c : Sched.ScheduledNotice}
    (h1 : Sched.comparePriority a b < 0) (h2 : Sched.comparePriority b c < 0) :
    Sched.comparePriority a c < 0 := by
  unfold Sched.comparePriority at *
  split_ifs at * <;> omega

theorem childIdx_parent {i j : Nat} (h : Sched.childIdx i j) : i = (j - 1) / 2 := by
  unfold Sched.childIdx at h
  omega

theorem childIdx_lt {i j : Nat} (h : Sched.childIdx i j) : i < j := by
  unfold Sched.childIdx at h
  omega

theorem childIdx_parent_self (j : Nat) (hj : j ≠ 0) : Sched.childIdx ((j - 1) / 2) j := by
  unfold Sched.childIdx
  omega

theorem getD_swapQ_snd (q : List Sched.ScheduledNotice) (i j : Nat) (hj : j < q.length) :
    (Sched.swapQ q i j).getD j default = q.getD i default := by
  unfold Sched.swapQ
  exact getD_set_self _ _ _ _ (by simpa using hj)

theorem getD_swapQ_fst (q : List Sched.ScheduledNotice) (i j : Nat) (hi : i < q.length)
    (hij : i ≠ j) : (Sched.swapQ q i j).getD i default = q.getD j default := by
  unfold Sched.swapQ
  rw [getD_set_ne _ _ _ _ _ hij, getD_set_self _ _ _ _ hi]

theorem getD_swapQ_other (q : List Sched.ScheduledNotice) (i j m : Nat)
    (hmi : m ≠ i) (hmj : m ≠ j) : (Sched.swapQ q i j).getD m default = q.getD m default := by
  unfold Sched.swapQ
  rw [getD_set_ne _ _ _ _ _ hmj, getD_set_ne _ _ _ _ _ hmi]

theorem getD_append_left {α : Type} (l l' : List α) (m : Nat) (d : α) (h : m < l.length) :
    (l ++ l').getD m d = l.getD m d := by
  rw [List.getD_eq_getElem?_getD, List.getD_eq_getElem?_getD, List.getElem?_append_left h]

theorem getD_dropLast (q : List Sched.ScheduledNotice) (m : Nat) (h : m < q.length - 1) :
    q.dropLast.getD m default = q.getD m default := by
  have hm : m < q.dropLast.length := by simp; omega
  rw [List.getD_eq_getElem?_getD, List.getD_eq_getElem?_getD,
    List.getElem?_eq_getElem hm, List.getElem?_eq_getElem (by omega : m < q.length),
    List.getElem_dropLast]

theorem getD_mem_of_lt {α : Type} (l : List α) (m : Nat) (d : α) (h : m < l.length) :
    l.getD m d ∈ l := by
  rw [List.getD_eq_getElem?_getD, List.getElem?_eq_getElem h]
  exact List.getElem_mem h

/-- When `heapifyDown` stops, the cursor's children are already above it. -/
theorem downTarget_eq_self {q : List Sched.ScheduledNotice} {k : Nat}
    (h : Sched.downTarget q k = k) :
    ∀ j, j < q.length → Sched.childIdx k j →
      Sched.prioLex (q.getD k default) (q.getD j default) := by
  simp only [Sched.downTarget] at h
  intro j hj hcj
  by_cases hg1 : 2 * k + 1 < q.length ∧
      Sched.comparePriority (q.getD (2 * k + 1) default) (q.getD k default) < 0
  · rw [if_pos hg1] at h
    by_cases hg2 : 2 * k + 2 < q.length ∧
        Sched.comparePriority (q.getD (2 * k + 2) default) (q.getD (2 * k + 1) default) < 0
    · rw [if_pos hg2] at h
      omega
    · rw [if_neg hg2] at h
      omega
  · rw [if_neg hg1] at h
    rcases hcj with hj1 | hj2
    · subst hj1
      exact comparePriority_not_lt (fun hb => hg1 ⟨hj, hb⟩)
    · subst hj2
      by_cases hg2 : 2 * k + 2 < q.length ∧
          Sched.comparePriority (q.getD (2 * k + 2) default) (q.getD k default) < 0
      · rw [if_pos hg2] at h
        omega
      · exact comparePriority_not_lt (fun hb => hg2 ⟨hj, hb⟩)

/-- When `heapifyDown` recurses, the selected child is strictly below the
cursor and weakly below the sibling. -/
theorem downTarget_ne_facts {q : List Sched.ScheduledNotice} {k : Nat}
    (h : Sched.downTarget q k ≠ k) :
    Sched.childIdx k (Sched.downTarget q k) ∧
    Sched.comparePriority (q.getD (Sched.downTarget q k) default) (q.getD k default) < 0 ∧
    (∀ j, j < q.length → Sched.childIdx k j → j ≠ Sched.downTarget q k →
      Sched.prioLex (q.getD (Sched.downTarget q k) default) (q.getD j default)) := by
  simp only [Sched.downTarget] at h ⊢
  by_cases hg1 : 2 * k + 1 < q.length ∧
      Sched.comparePriority (q.getD (2 * k + 1) default) (q.getD k default) < 0
  · rw [if_pos hg1] at h ⊢
    by_cases hg2 : 2 * k + 2 < q.length ∧
        Sched.comparePriority (q.getD (2 * k + 2) default) (q.getD (2 * k + 1) default) < 0
    · rw [if_pos hg2] at h ⊢
      refine ⟨Or.inr rfl, comparePriority_lt_lt_trans hg2.2 hg1.2, ?_⟩
      intro j hj hcj hne
      rcases hcj with hj1 | hj2
      · subst hj1
        exact comparePriority_lt hg2.2
      · omega
    · rw [if_neg hg2] at h ⊢
      refine ⟨Or.inl rfl, hg1.2, ?_⟩
      intro j hj hcj hne
      rcases hcj with hj1 | hj2
      · omega
      · subst hj2
        exact comparePriority_not_lt (fun hb => hg2 ⟨hj, hb⟩)
  · rw [if_neg hg1] at h ⊢
    by_cases hg2 : 2 * k + 2 < q.length ∧
        Sched.comparePriority (q.getD (2 * k + 2) default) (q.getD k default) < 0
    · rw [if_pos hg2] at h ⊢
      refine ⟨Or.inr rfl, hg2.2, ?_⟩
      intro j hj hcj hne
      rcases hcj with hj1 | hj2
      · subst hj1
        have hle : Sched.prioLex (q.getD k default) (q.getD (2 * k + 1) default) :=
          comparePriority_not_lt (fun hb => hg1 ⟨hj, hb⟩)
        exact prioLex_trans (comparePriority_lt hg2.2) hle
      · omega
    · rw [if_neg hg2] at h
      exact absurd rfl h

theorem isHeap_of_downInv_self {q : List Sched.ScheduledNotice} {k : Nat}
    (hinv : Sched.DownInv q k) (h : Sched.downTarget q k = k) : Sched.IsHeap q := by
  intro i j hj hij
  by_cases hik : i = k
  · subst hik
    exact downTarget_eq_self h j hj hij
  · exact hinv.1 i j hj hij hik

theorem downInv_swap (q : List Sched.ScheduledNotice) (k s : Nat) (hs : s < q.length)
    (hcs : Sched.childIdx k s) (hinv : Sched.DownInv q k)
    (hlt : Sched.comparePriority (q.getD s default) (q.getD k default) < 0)
    (hother : ∀ j, j < q.length → Sched.childIdx k j → j ≠ s →
      Sched.prioLex (q.getD s default) (q.getD j default)) :
    Sched.DownInv (Sched.swapQ q k s) s := by
  obtain ⟨h1, h2⟩ := hinv
  have hks : k < s := childIdx_lt hcs
  have hk : k < q.length := lt_trans hks hs
  have hps : (s - 1) / 2 = k := (childIdx_parent hcs).symm
  constructor
  · intro i j hj hij his
    rw [length_swapQ] at hj
    have hij_lt := childIdx_lt hij
    by_cases hjs : j = s
    · subst hjs
      have hik : i = k := by
        have hp := childIdx_parent hij
        omega
      subst hik
      rw [getD_swapQ_snd _ _ _ hs, getD_swapQ_fst _ _ _ hk (by omega)]
      exact comparePriority_lt hlt
    · by_cases hik : i = k
      · subst hik
        rw [getD_swapQ_fst _ _ _ hk (by omega), getD_swapQ_other _ _ _ _ (by omega) hjs]
        exact hother j hj hij hjs
      · by_cases hjk : j = k
        · subst hjk
          have hj0 : j ≠ 0 := by
            have := childIdx_lt hij
            omega
          have hip : i = (j - 1) / 2 := childIdx_parent hij
          rw [getD_swapQ_other _ _ _ _ hik his, getD_swapQ_fst _ _ _ hk (by omega)]
          rw [hip]
          exact h2 hj0 s hs hcs
        · rw [getD_swapQ_other _ _ _ _ hik his, getD_swapQ_other _ _ _ _ hjk hjs]
          exact h1 i j hj hij hik
  · intro _hs0 j hj hcsj
    rw [length_swapQ] at hj
    have hjlt := childIdx_lt hcsj
    have hjs : j ≠ s := by omega
    have hjk : j ≠ k := by omega
    rw [hps, getD_swapQ_fst _ _ _ hk (by omega), getD_swapQ_other _ _ _ _ hjk hjs]
    exact h1 s j hj hcsj (by omega)

theorem heapifyDown_isHeap (q : List Sched.ScheduledNotice) (k : Nat)
    (hinv : Sched.DownInv q k) : Sched.IsHeap (Sched.heapifyDown q k) := by
  suffices H : ∀ (fuel : Nat) (q : List Sched.ScheduledNotice) (k : Nat),
      q.length - k ≤ fuel → Sched.DownInv q k → Sched.IsHeap (Sched.heapifyDown q k) from
    H (q.length - k) q k le_rfl hinv
  intro fuel
  induction fuel with
  | zero =>
    intro q k hf hinv
    have hd : ¬ Sched.downTarget q k ≠ k := by
      intro hne
      have h1 := Sched.downTarget_gt hne
      have h2 := Sched.downTarget_lt_length hne
      omega
    rw [Sched.heapifyDown, dif_neg hd]
    exact isHeap_of_downInv_self hinv (not_not.mp hd)
  | succ f ih =>
    intro q k hf hinv
    by_cases hd : Sched.downTarget q k ≠ k
    · obtain ⟨hcs, hlt, hother⟩ := downTarget_ne_facts hd
      have h1 := Sched.downTarget_gt hd
      have h2 := Sched.downTarget_lt_length hd
      rw [Sched.heapifyDown, dif_pos hd]
      apply ih
      · rw [length_swapQ]
        omega
      · exact downInv_swap q k _ h2 hcs hinv hlt hother
    · rw [Sched.heapifyDown, dif_neg hd]
      exact isHeap_of_downInv_self hinv (not_not.mp hd)

theorem isHeap_of_upInv_stop {q : List Sched.ScheduledNotice} {k : Nat}
    (hinv : Sched.UpInv q k)
    (hstop : k = 0 ∨
      ¬ Sched.comparePriority (q.getD k default) (q.getD ((k - 1) / 2) default) < 0) :
    Sched.IsHeap q := by
  intro i j hj hij
  by_cases hjk : j = k
  · subst hjk
    have hj0 : j ≠ 0 := by
      have := childIdx_lt hij
      omega
    rcases hstop with h0 | hc
    · exact absurd h0 hj0
    · have hip : i = (j - 1) / 2 := childIdx_parent hij
      rw [hip]
      exact comparePriority_not_lt hc
  · exact hinv.1 i j hj hij hjk

theorem upInv_swap (q : List Sched.ScheduledNotice) (k : Nat) (hk : k < q.length)
    (hk0 : k ≠ 0) (hinv : Sched.UpInv q k)
    (hlt : Sched.comparePriority (q.getD k default) (q.getD ((k - 1) / 2) default) < 0) :
    Sched.UpInv (Sched.swapQ q k ((k - 1) / 2)) ((k - 1) / 2) := by
  obtain ⟨h1, h2⟩ := hinv
  have hpk : (k - 1) / 2 < k := by omega
  have hp : (k - 1) / 2 < q.length := lt_trans hpk hk
  have hcpk : Sched.childIdx ((k - 1) / 2) k := childIdx_parent_self k hk0
  constructor
  · intro i j hj hij hjp
    rw [length_swapQ] at hj
    have hij_lt := childIdx_lt hij
    by_cases hjk : j = k
    · subst hjk
      have hip : i = (j - 1) / 2 := childIdx_parent hij
      subst hip
      rw [getD_swapQ_fst _ _ _ hk (by omega), getD_swapQ_snd _ _ _ hp]
      exact comparePriority_lt hlt
    · by_cases hip : i = (k - 1) / 2
      · subst hip
        rw [getD_swapQ_snd _ _ _ hp, getD_swapQ_other _ _ _ _ hjk hjp]
        have hedge : Sched.prioLex (q.getD ((k - 1) / 2) default) (q.getD j default) :=
          h1 _ j hj hij hjk
        exact prioLex_trans (comparePriority_lt hlt) hedge
      · by_cases hik : i = k
        · subst hik
          rw [getD_swapQ_fst _ _ _ hk (by omega), getD_swapQ_other _ _ _ _ hjk hjp]
          exact h2 hk0 j hj hij
        · rw [getD_swapQ_other _ _ _ _ hik hip, getD_swapQ_other _ _ _ _ hjk hjp]
          exact h1 i j hj hij hjk
  · intro hp0 j hj hcj
    rw [length_swapQ] at hj
    have hjlt := childIdx_lt hcj
    have hgp : ((k - 1) / 2 - 1) / 2 < (k - 1) / 2 := by omega
    have hgpk : ((k - 1) / 2 - 1) / 2 ≠ k := by omega
    have hgpp : ((k - 1) / 2 - 1) / 2 ≠ (k - 1) / 2 := by omega
    have hcgp : Sched.childIdx (((k - 1) / 2 - 1) / 2) ((k - 1) / 2) :=
      childIdx_parent_self _ hp0
    rw [getD_swapQ_other _ _ _ _ hgpk hgpp]
    by_cases hjk : j = k
    · subst hjk
      rw [getD_swapQ_fst _ _ _ hk (by omega)]
      exact h1 _ _ hp hcgp (by omega)
    · have hjp : j ≠ (k - 1) / 2 := by omega
      rw [getD_swapQ_other _ _ _ _ hjk hjp]
      have e1 : Sched.prioLex (q.getD (((k - 1) / 2 - 1) / 2) default)
          (q.getD ((k - 1) / 2) default) := h1 _ _ hp hcgp (by omega)
      have e2 : Sched.prioLex (q.getD ((k - 1) / 2) default) (q.getD j default) :=
        h1 _ j hj hcj hjk
      exact prioLex_trans e1 e2

theorem heapifyUp_isHeap (q : List Sched.ScheduledNotice) (k : Nat) (hk : k < q.length)
    (hinv : Sched.UpInv q k) : Sched.IsHeap (Sched.heapifyUp q k) := by
  induction k using Nat.strong_induction_on generalizing q with
  | _ k ih =>
    rw [Sched.heapifyUp]
    by_cases h0 : k = 0
    · rw [if_pos h0]
      exact isHeap_of_upInv_stop hinv (Or.inl h0)
    · rw [if_neg h0]
      by_cases hc : Sched.comparePriority (q.getD k default)
          (q.getD ((k - 1) / 2) default) < 0
      · rw [if_pos hc]
        apply ih ((k - 1) / 2) (by omega)
        · rw [length_swapQ]
          exact lt_trans (by omega) hk
        · exact upInv_swap q k hk h0 hinv hc
      · rw [if_neg hc]
        exact isHeap_of_upInv_stop hinv (Or.inr hc)

/-! ## Heap operations preserve the invariant; draining is sorted -/

theorem isHeap_nil : Sched.IsHeap [] := by
  intro i j hj _
  simp at hj

theorem insert_isHeap (q : List Sched.ScheduledNotice) (n : Sched.ScheduledNotice)
    (hq : Sched.IsHeap q) : Sched.IsHeap (Sched.insertIntoPriorityQueue q n) := by
  unfold Sched.insertIntoPriorityQueue
  have hlen : (q ++ [n]).length = q.length + 1 := by simp
  apply heapifyUp_isHeap
  · omega
  · constructor
    · intro i j hj hij hjk
      rw [hlen] at hj
      have hjq : j < q.length := by omega
      have hiq : i < q.length := lt_trans (childIdx_lt hij) hjq
      rw [getD_append_left _ _ _ _ hiq, getD_append_left _ _ _ _ hjq]
      exact hq i j hjq hij
    · intro _h0 j hj hcj
      rw [hlen] at hj
      have := childIdx_lt hcj
      unfold Sched.childIdx at hcj
      omega

theorem getNext_isHeap (q : List Sched.ScheduledNotice) (hq : Sched.IsHeap q) :
    Sched.IsHeap (Sched.getNextNotice q).2 := by
  unfold Sched.getNextNotice
  by_cases hq0 : q.length = 0
  · rw [if_pos hq0]
    exact hq
  · rw [if_neg hq0]
    by_cases h1 : 0 < q.dropLast.length
    · rw [if_pos h1]
      apply heapifyDown_isHeap
      constructor
      · intro i j hj hij hik
        rw [List.length_set, List.length_dropLast] at hj
        have hil : i < q.length - 1 := lt_trans (childIdx_lt hij) hj
        have hj0 : j ≠ 0 := by
          have := childIdx_lt hij
          omega
        rw [getD_set_ne _ _ _ _ _ hik, getD_set_ne _ _ _ _ _ hj0,
          getD_dropLast _ _ hil, getD_dropLast _ _ hj]
        exact hq i j (by omega) hij
      · intro h0 _ _ _
        exact absurd rfl h0
    · rw [if_neg h1]
      intro i j hj _
      dsimp only at hj
      simp only [List.length_dropLast] at hj h1
      omega

theorem isHeap_root_min {q : List Sched.ScheduledNotice} (hq : Sched.IsHeap q) :
    ∀ j, j < q.length → Sched.prioLex (q.getD 0 default) (q.getD j default) := by
  intro j
  induction j using Nat.strong_induction_on with
  | _ j ih =>
    intro hj
    rcases Nat.eq_zero_or_pos j with h0 | hpos
    · subst h0
      exact prioLex_refl _
    · have hc := childIdx_parent_self j (by omega)
      have hp : (j - 1) / 2 < j := by omega
      exact prioLex_trans (ih _ hp (by omega)) (hq _ j hj hc)

theorem getNextNotice_fst {q : List Sched.ScheduledNotice} (h : ¬ q.length = 0) :
    (Sched.getNextNotice q).1 = some (q.getD 0 default) := by
  simp only [Sched.getNextNotice, if_neg h]
  split_ifs <;> rfl

theorem getNextNotice_snd_length {q : List Sched.ScheduledNotice} (h : ¬ q.length = 0) :
    (Sched.getNextNotice q).2.length = q.length - 1 := by
  simp only [Sched.getNextNotice, if_neg h]
  split_ifs with h1
  · show (Sched.heapifyDown _ 0).length = _
    rw [length_heapifyDown, List.length_set, List.length_dropLast]
  · show q.dropLast.length = _
    rw [List.length_dropLast]

theorem getNextNotice_snd_mem {q x : _} (hx : x ∈ (Sched.getNextNotice q).2) : x ∈ q := by
  by_cases h : q.length = 0
  · rw [Sched.getNextNotice, if_pos h] at hx
    exact hx
  · simp only [Sched.getNextNotice, if_neg h] at hx
    split_ifs at hx with h1
    · have hx2 : x ∈ (q.dropLast.set 0 (q.getD (q.length - 1) default)) :=
        (heapifyDown_perm _ 0).mem_iff.mp hx
      rcases List.mem_or_eq_of_mem_set hx2 with h2 | h2
      · exact (List.dropLast_sublist q).mem h2
      · subst h2
        exact getD_mem_of_lt _ _ _ (by omega)
    · exact (List.dropLast_sublist q).mem hx

theorem drainFuel_mem : ∀ (fuel : Nat) (q : List Sched.ScheduledNotice) (x : _),
    x ∈ Sched.drainFuel fuel q → x ∈ q := by
  intro fuel
  induction fuel with
  | zero =>
    intro q x hx
    simp [Sched.drainFuel] at hx
  | succ f ih =>
    intro q x hx
    rcases hgn : Sched.getNextNotice q with ⟨o, q'⟩
    cases o with
    | none =>
      simp only [Sched.drainFuel, hgn] at hx
      simp at hx
    | some n =>
      simp only [Sched.drainFuel, hgn] at hx
      rcases List.mem_cons.mp hx with h2 | h2
      · subst h2
        by_cases hq0 : q.length = 0
        · rw [Sched.getNextNotice, if_pos hq0] at hgn
          simp at hgn
        · have := getNextNotice_fst hq0
          rw [hgn] at this
          simp only [Option.some.injEq] at this
          rw [this]
          exact getD_mem_of_lt _ _ _ (by omega)
      · have : x ∈ q' := ih q' x h2
        have hq' : x ∈ (Sched.getNextNotice q).2 := by
          rw [hgn]
          exact this
        exact getNextNotice_snd_mem hq'

theorem drainFuel_sorted : ∀ (fuel : Nat) (q : List Sched.ScheduledNotice),
    q.length ≤ fuel → Sched.IsHeap q →
    List.Pairwise Sched.prioLex (Sched.drainFuel fuel q) := by
  intro fuel
  induction fuel with
  | zero =>
    intro q _ _
    simp [Sched.drainFuel]
  | succ f ih =>
    intro q hlen hq
    rcases hgn : Sched.getNextNotice q with ⟨o, q'⟩
    cases o with
    | none =>
      simp [Sched.drainFuel, hgn]
    | some n =>
      by_cases hq0 : q.length = 0
      · rw [Sched.getNextNotice, if_pos hq0] at hgn
        simp at hgn
      · have hfst := getNextNotice_fst hq0
        rw [hgn] at hfst
        simp only [Option.some.injEq] at hfst
        have hq' : Sched.IsHeap q' := by
          have := getNext_isHeap q hq
          rw [hgn] at this
          exact this
        have hlen' : q'.length ≤ f := by
          have := getNextNotice_snd_length hq0
          rw [hgn] at this
          simp only at this
          omega
        simp only [Sched.drainFuel, hgn]
        constructor
        · intro b hb
          have hbq' : b ∈ q' := drainFuel_mem f q' b hb
          have hbq : b ∈ q := getNextNotice_snd_mem (by rw [hgn]; exact hbq')
          obtain ⟨m, hm, hbm⟩ := List.mem_iff_getElem.mp hbq
          have hroot := isHeap_root_min hq m hm
          rw [hfst]
          have : q.getD m default = b := by
            rw [List.getD_eq_getElem?_getD, List.getElem?_eq_getElem hm]
            exact hbm
          rw [← this]
          exact hroot
        · exact ih q' hlen' hq'

theorem applyOps_isHeap (ops : List Sched.HeapOp) :
    ∀ q, Sched.IsHeap q → Sched.IsHeap (Sched.applyOps ops q) := by
  induction ops with
  | nil =>
    intro q hq
    exact hq
  | cons op t ih =>
    intro q hq
    show Sched.IsHeap (Sched.applyOps t (Sched.applyOp q op))
    apply ih
    cases op with
    | schedule n => exact insert_isHeap q n hq
    | getNext => exact getNext_isHeap q hq

/-- C2: starting from the empty dispatch queue, after any interleaving of
`scheduleNotice` insertions (`insertIntoPriorityQueue`) and `getNextNotice`
extractions, repeatedly extracting until empty returns the notices in
non-decreasing priority-ordinal order, ties in non-decreasing
`visibleFrom` (`prioLex` is exactly that ordering). -/
theorem C2_heap_extraction_sorted (ops : List Sched.HeapOp) :
    List.Pairwise Sched.prioLex (Sched.drain (Sched.applyOps ops [])) := by
  unfold Sched.drain
  exact drainFuel_sorted _ _ le_rfl (applyOps_isHeap ops [] isHeap_nil)

/-! ## C6 (amended): the scan's queue removal -/

theorem foldl_ckpt_dispatchQueue (L : List String) (st : Sched.SchedulerState)
    (n : Sched.ScheduledNotice) (now : Int) :
    (L.foldl (fun st2 tid => Sched.createDeliveryCheckpoint st2 tid n now) st).dispatchQueue =
      st.dispatchQueue := by
  induction L generalizing st with
  | nil => rfl
  | cons a t ih =>
    rw [List.foldl_cons, ih]
    rfl

theorem foldl_buffer_dispatchQueue (L : List String) (st : Sched.SchedulerState)
    (n : Sched.ScheduledNotice) :
    (L.foldl (fun st2 ch => Sched.addToDisplayBuffer st2 ch n) st).dispatchQueue =
      st.dispatchQueue := by
  induction L generalizing st with
  | nil => rfl
  | cons a t ih =>
    rw [List.foldl_cons, ih]
    rfl

theorem activateNotice_dispatchQueue (st : Sched.SchedulerState)
    (n : Sched.ScheduledNotice) (now : Int) :
    (Sched.activateNotice st n now).dispatchQueue = st.dispatchQueue := by
  simp only [Sched.activateNotice]
  rw [foldl_buffer_dispatchQueue, foldl_ckpt_dispatchQueue]

theorem foldl_aar_dispatchQueue (L : List Sched.ScheduledNotice)
    (st : Sched.SchedulerState) (now : Int) :
    (L.foldl (fun st2 n => Sched.activateAndRemove st2 n now) st).dispatchQueue =
      L.foldl Sched.removeFromQueue st.dispatchQueue := by
  induction L generalizing st with
  | nil => rfl
  | cons a t ih =>
    rw [List.foldl_cons, List.foldl_cons, ih]
    congr 1
    simp only [Sched.activateAndRemove]
    rw [activateNotice_dispatchQueue]

theorem getD_eq_get {α : Type} (l : List α) (i : Nat) (d : α) (h : i < l.length) :
    l.getD i d = l.get ⟨i, h⟩ := by
  rw [List.getD_eq_getElem?_getD, List.getElem?_eq_getElem h, Option.getD_some,
    List.get_eq_getElem]

theorem mem_iff_getD {α : Type} (l : List α) (d : α) (x : α) :
    x ∈ l ↔ ∃ k, k < l.length ∧ l.getD k d = x := by
  constructor
  · intro hx
    obtain ⟨n, hn, he⟩ := List.mem_iff_getElem.mp hx
    refine ⟨n, hn, ?_⟩
    rw [getD_eq_get l n d hn, List.get_eq_getElem]
    exact he
  · rintro ⟨k, hk, he⟩
    rw [← he]
    exact getD_mem_of_lt l k d hk

theorem findIdx_getD_pred {p : Sched.ScheduledNotice → Bool}
    {q : List Sched.ScheduledNotice} (h : q.findIdx p < q.length) :
    p (q.getD (q.findIdx p) default) = true := by
  rw [getD_eq_get q _ default h, List.get_eq_getElem]
  exact List.findIdx_getElem (w := h)

theorem nodup_map_ids_ne : ∀ (q : List Sched.ScheduledNotice),
    (q.map Sched.ScheduledNotice.noticeId).Nodup →
    ∀ a b : Nat, a < q.length → b < q.length → a ≠ b →
    (q.getD a default).noticeId ≠ (q.getD b default).noticeId := by
  intro q
  induction q with
  | nil =>
    intro _ a b ha
    simp at ha
  | cons x t ih =>
    intro hnd a b ha hb hab
    rw [List.map_cons, List.nodup_cons] at hnd
    obtain ⟨hxn, htn⟩ := hnd
    cases a with
    | zero =>
      cases b with
      | zero => exact absurd rfl hab
      | succ b2 =>
        simp only [List.getD_cons_zero, List.getD_cons_succ]
        intro he
        apply hxn
        rw [List.mem_map]
        exact ⟨t.getD b2 default, getD_mem_of_lt _ _ _ (by simpa using hb), he.symm⟩
    | succ a2 =>
      cases b with
      | zero =>
        simp only [List.getD_cons_zero, List.getD_cons_succ]
        intro he
        apply hxn
        rw [List.mem_map]
        exact ⟨t.getD a2 default, getD_mem_of_lt _ _ _ (by simpa using ha), he⟩
      | succ b2 =>
        simp only [List.getD_cons_succ]
        exact ih htn a2 b2 (by simpa using ha) (by simpa using hb) (by omega)

theorem set_perm_cons_eraseIdx {α : Type} (t : List α) (m : Nat) (a : α)
    (h : m < t.length) : (t.set m a).Perm (a :: t.eraseIdx m) := by
  rw [List.set_eq_take_cons_drop a h, List.eraseIdx_eq_take_drop_succ]
  exact List.perm_middle

theorem removeFromQueue_subset {q : List Sched.ScheduledNotice}
    {m x : Sched.ScheduledNotice} (hx : x ∈ Sched.removeFromQueue q m) : x ∈ q := by
  simp only [Sched.removeFromQueue] at hx
  split_ifs at hx with h1 h2
  · have hx2 := (heapifyDown_perm _ _).mem_iff.mp hx
    rcases List.mem_or_eq_of_mem_set hx2 with h3 | h3
    · exact (List.dropLast_sublist q).mem h3
    · subst h3
      exact getD_mem_of_lt _ _ _ (by omega)
  · exact (List.dropLast_sublist q).mem hx
  · exact hx

theorem removeFromQueue_no_id {q : List Sched.ScheduledNotice}
    {m : Sched.ScheduledNotice}
    (hnd : (q.map Sched.ScheduledNotice.noticeId).Nodup) :
    ∀ x ∈ Sched.removeFromQueue q m, x.noticeId ≠ m.noticeId := by
  intro x hx he
  simp only [Sched.removeFromQueue] at hx
  split_ifs at hx with h1 h2
  · have hpred : (q.getD (q.findIdx (fun n => n.noticeId == m.noticeId))
        default).noticeId = m.noticeId := by
      have h0 := findIdx_getD_pred h1
      simpa using h0
    rw [List.length_dropLast] at h2
    have hx2 := (heapifyDown_perm _ _).mem_iff.mp hx
    obtain ⟨k, hk, hkx⟩ := (mem_iff_getD _ default x).mp hx2
    rw [List.length_set, List.length_dropLast] at hk
    by_cases hki : k = q.findIdx (fun n => n.noticeId == m.noticeId)
    · subst hki
      rw [getD_set_self _ _ _ _ (by simpa using h2)] at hkx
      have hne := nodup_map_ids_ne q hnd (q.length - 1)
        (q.findIdx (fun n => n.noticeId == m.noticeId)) (by omega) h1 (by omega)
      exact hne ((congrArg Sched.ScheduledNotice.noticeId hkx).trans (he.trans hpred.symm))
    · rw [getD_set_ne _ _ _ _ _ hki, getD_dropLast _ _ hk] at hkx
      have hne := nodup_map_ids_ne q hnd k
        (q.findIdx (fun n => n.noticeId == m.noticeId)) (by omega) h1 hki
      exact hne ((congrArg Sched.ScheduledNotice.noticeId hkx).trans (he.trans hpred.symm))
  · have hpred : (q.getD (q.findIdx (fun n => n.noticeId == m.noticeId))
        default).noticeId = m.noticeId := by
      have h0 := findIdx_getD_pred h1
      simpa using h0
    rw [List.length_dropLast] at h2
    obtain ⟨k, hk, hkx⟩ := (mem_iff_getD _ default x).mp hx
    rw [List.length_dropLast] at hk
    rw [getD_dropLast _ _ hk] at hkx
    have hne := nodup_map_ids_ne q hnd k
      (q.findIdx (fun n => n.noticeId == m.noticeId)) (by omega) h1 (by omega)
    exact hne ((congrArg Sched.ScheduledNotice.noticeId hkx).trans (he.trans hpred.symm))
  · have hex : ∃ y ∈ q, (fun n => n.noticeId == m.noticeId) y := by
      refine ⟨x, hx, ?_⟩
      simp [he]
    exact h1 (List.findIdx_lt_length_of_exists hex)

theorem removeFromQueue_nodup {q : List Sched.ScheduledNotice}
    {m : Sched.ScheduledNotice}
    (hnd : (q.map Sched.ScheduledNotice.noticeId).Nodup) :
    ((Sched.removeFromQueue q m).map Sched.ScheduledNotice.noticeId).Nodup := by
  simp only [Sched.removeFromQueue]
  split_ifs with h1 h2
  · have hperm : (Sched.heapifyDown
        (q.dropLast.set (q.findIdx (fun n => n.noticeId == m.noticeId))
          (q.getD (q.length - 1) default))
        (q.findIdx (fun n => n.noticeId == m.noticeId))).Perm
        (q.dropLast.set (q.findIdx (fun n => n.noticeId == m.noticeId))
          (q.getD (q.length - 1) default)) := heapifyDown_perm _ _
    refine ((hperm.map Sched.ScheduledNotice.noticeId).nodup_iff).mpr ?_
    have hperm2 := set_perm_cons_eraseIdx q.dropLast
      (q.findIdx (fun n => n.noticeId == m.noticeId))
      (q.getD (q.length - 1) default) h2
    refine ((hperm2.map Sched.ScheduledNotice.noticeId).nodup_iff).mpr ?_
    rw [List.map_cons, List.nodup_cons]
    constructor
    · intro hmem
      rw [List.mem_map] at hmem
      obtain ⟨y, hy, hyid⟩ := hmem
      have hy2 : y ∈ q.dropLast := (List.eraseIdx_sublist _ _).mem hy
      obtain ⟨k, hk, hky⟩ := (mem_iff_getD _ default y).mp hy2
      rw [List.length_dropLast] at hk
      rw [getD_dropLast _ _ hk] at hky
      rw [List.length_dropLast] at h2
      have hne := nodup_map_ids_ne q hnd k (q.length - 1)
        (by omega) (by omega) (by omega)
      exact hne ((congrArg Sched.ScheduledNotice.noticeId hky).trans hyid)
    · exact ((List.eraseIdx_sublist _ _).map _).nodup
        (((List.dropLast_sublist q).map _).nodup hnd)
  · exact ((List.dropLast_sublist q).map _).nodup hnd
  · exact hnd

theorem foldl_remove_subset (t : List Sched.ScheduledNotice) :
    ∀ (q : List Sched.ScheduledNotice) (x : Sched.ScheduledNotice),
    x ∈ t.foldl Sched.removeFromQueue q → x ∈ q := by
  induction t with
  | nil =>
    intro q x hx
    exact hx
  | cons a t ih =>
    intro q x hx
    rw [List.foldl_cons] at hx
    exact removeFromQueue_subset (ih _ x hx)

theorem foldl_remove_no_id (L : List Sched.ScheduledNotice) :
    ∀ (q : List Sched.ScheduledNotice),
    (q.map Sched.ScheduledNotice.noticeId).Nodup →
    ∀ n ∈ L, ∀ x ∈ L.foldl Sched.removeFromQueue q, x.noticeId ≠ n.noticeId := by
  induction L with
  | nil =>
    intro q _ n hn
    cases hn
  | cons a t ih =>
    intro q hnd n hn x hx
    rw [List.foldl_cons] at hx
    rcases List.mem_cons.mp hn with h1 | h1
    · subst h1
      exact removeFromQueue_no_id hnd x (foldl_remove_subset t _ x hx)
    · exact ih (Sched.removeFromQueue q a) (removeFromQueue_nodup hnd) n h1 x hx

/-- C6 (amended): only the coarse periodic scan removes activated entries,
and it does so correctly when the pending queue holds at most one entry per
notice id — after `processScheduledNotices`, no queue entry carries the id
of any notice activated by that pass.  Wheel-tick activation leaves queue
entries in place and `preemptWithEmergency` adds an entry that survives its
own activation (counterexample). -/
theorem C6_scan_removes_queue_entry (s : Sched.SchedulerState) (now : Int)
    (hnd : (s.dispatchQueue.map Sched.ScheduledNotice.noticeId).Nodup) :
    ∀ n ∈ Sched.toActivate s now,
      ∀ x ∈ (Sched.processScheduledNotices s now).dispatchQueue,
        x.noticeId ≠ n.noticeId := by
  intro n hn x hx
  have hq : (Sched.processScheduledNotices s now).dispatchQueue =
      (Sched.toActivate s now).foldl Sched.removeFromQueue s.dispatchQueue := by
    unfold Sched.processScheduledNotices
    exact foldl_aar_dispatchQueue _ _ _
  rw [hq] at hx
  exact foldl_remove_no_id _ _ hnd n hn x hx

theorem C6_scan_removes_queue_entry_witness :
    (c6scanState.dispatchQueue.map Sched.ScheduledNotice.noticeId).Nodup ∧
    (∀ n ∈ Sched.toActivate c6scanState 1000,
      ∀ x ∈ (Sched.processScheduledNotices c6scanState 1000).dispatchQueue,
        x.noticeId ≠ n.noticeId) :=
  ⟨by decide, C6_scan_removes_queue_entry c6scanState 1000 (by decide)⟩

/-! ## C4: the probabilistic seen-set has no false negatives -/

theorem getD_set_true_mono (bits : List Bool) (i p : Nat)
    (h : bits.getD p false = true) : (bits.set i true).getD p false = true := by
  by_cases hpi : p = i
  · subst hpi
    by_cases hlen : p < bits.length
    · rw [getD_set_self _ _ _ _ hlen]
    · rw [List.set_eq_of_length_le (by omega)]
      exact h
  · rw [getD_set_ne _ _ _ _ _ hpi]
    exact h

theorem length_foldl_set (L : List (String → Nat)) (key : String) (size : Nat) :
    ∀ bits : List Bool,
      (L.foldl (fun b h => b.set (h key % size) true) bits).length = bits.length := by
  induction L with
  | nil =>
    intro bits
    rfl
  | cons h0 t ih =>
    intro bits
    rw [List.foldl_cons, ih, List.length_set]

theorem foldl_set_preserves (L : List (String → Nat)) (key : String) (size : Nat) :
    ∀ (bits : List Bool) (p : Nat), bits.getD p false = true →
      (L.foldl (fun b h => b.set (h key % size) true) bits).getD p false = true := by
  induction L with
  | nil =>
    intro bits p h
    exact h
  | cons h0 t ih =>
    intro bits p h
    rw [List.foldl_cons]
    exact ih _ p (getD_set_true_mono _ _ _ h)

theorem foldl_set_own (L : List (String → Nat)) (key : String) (size : Nat)
    (hsize : 0 < size) :
    ∀ bits : List Bool, bits.length = size → ∀ h ∈ L,
      (L.foldl (fun b h2 => b.set (h2 key % size) true) bits).getD (h key % size) false
        = true := by
  induction L with
  | nil =>
    intro bits _ h hh
    cases hh
  | cons h0 t ih =>
    intro bits hlen h hh
    rw [List.foldl_cons]
    rcases List.mem_cons.mp hh with h1 | h1
    · subst h1
      apply foldl_set_preserves
      have hpos : h key % size < bits.length := by
        rw [hlen]
        exact Nat.mod_lt _ hsize
      rw [getD_set_self _ _ _ _ hpos]
    · exact ih _ (by rw [List.length_set]; exact hlen) h h1

theorem bloomAdd_length (bf : ATS.BloomFilter) (key : String) :
    (ATS.bloomAdd bf key).bits.length = bf.bits.length :=
  length_foldl_set bf.hashFns key bf.size bf.bits

theorem bloomAdd_preserves (bf : ATS.BloomFilter) (key : String) (p : Nat)
    (h : bf.bits.getD p false = true) : (ATS.bloomAdd bf key).bits.getD p false = true :=
  foldl_set_preserves bf.hashFns key bf.size bf.bits p h

theorem applyMarks_bloom_size (L : List (String × String)) :
    ∀ s : ATS.TargetingState,
      (ATS.applyMarks s L).seenNoticesBloom.size = s.seenNoticesBloom.size := by
  induction L with
  | nil =>
    intro s
    rfl
  | cons c t ih =>
    intro s
    show (ATS.applyMarks (ATS.markNoticeSeen s c.1 c.2) t).seenNoticesBloom.size = _
    rw [ih]
    rfl

theorem applyMarks_bloom_hashFns (L : List (String × String)) :
    ∀ s : ATS.TargetingState,
      (ATS.applyMarks s L).seenNoticesBloom.hashFns = s.seenNoticesBloom.hashFns := by
  induction L with
  | nil =>
    intro s
    rfl
  | cons c t ih =>
    intro s
    show (ATS.applyMarks (ATS.markNoticeSeen s c.1 c.2) t).seenNoticesBloom.hashFns = _
    rw [ih]
    rfl

theorem applyMarks_bloom_length (L : List (String × String)) :
    ∀ s : ATS.TargetingState,
      (ATS.applyMarks s L).seenNoticesBloom.bits.length =
        s.seenNoticesBloom.bits.length := by
  induction L with
  | nil =>
    intro s
    rfl
  | cons c t ih =>
    intro s
    show (ATS.applyMarks (ATS.markNoticeSeen s c.1 c.2) t).seenNoticesBloom.bits.length = _
    rw [ih]
    exact bloomAdd_length _ _

theorem applyMarks_preserves (L : List (String × String)) :
    ∀ (s : ATS.TargetingState) (p : Nat), s.seenNoticesBloom.bits.getD p false = true →
      (ATS.applyMarks s L).seenNoticesBloom.bits.getD p false = true := by
  induction L with
  | nil =>
    intro s p h
    exact h
  | cons c t ih =>
    intro s p h
    show (ATS.applyMarks (ATS.markNoticeSeen s c.1 c.2) t).seenNoticesBloom.bits.getD
        p false = true
    exact ih _ p (bloomAdd_preserves _ _ p h)

/-- C4: once `markNoticeSeen(u, n)` has run, every later
`hasUserSeenNotice(u, n)` returns true regardless of other marks before or
after — the bit-array is only ever set, never cleared, so the
spec-modelled probabilistic structure has no false negatives, for any
choice of hash functions. -/
theorem C4_no_false_negatives (hashFns : List (String → Nat))
    (prior later : List (String × String)) (u n : String) :
    ATS.hasUserSeenNotice
      (ATS.applyMarks
        (ATS.markNoticeSeen (ATS.applyMarks (ATS.newService hashFns) prior) u n) later)
      u n = true := by
  unfold ATS.hasUserSeenNotice ATS.bloomHas
  rw [List.all_eq_true]
  intro h hh
  rw [applyMarks_bloom_hashFns] at hh
  have hh2 : h ∈ hashFns := by
    have e : (ATS.markNoticeSeen (ATS.applyMarks (ATS.newService hashFns) prior)
        u n).seenNoticesBloom.hashFns = hashFns := by
      show (ATS.bloomAdd _ _).hashFns = hashFns
      rw [show ∀ bf key, (ATS.bloomAdd bf key).hashFns = bf.hashFns from fun _ _ => rfl]
      rw [applyMarks_bloom_hashFns]
      rfl
    rw [e] at hh
    exact hh
  have hsz : (ATS.applyMarks
      (ATS.markNoticeSeen (ATS.applyMarks (ATS.newService hashFns) prior) u n)
      later).seenNoticesBloom.size = 10000 := by
    rw [applyMarks_bloom_size]
    show (ATS.bloomAdd _ _).size = 10000
    rw [show ∀ bf key, (ATS.bloomAdd bf key).size = bf.size from fun _ _ => rfl]
    rw [applyMarks_bloom_size]
    rfl
  rw [hsz]
  apply applyMarks_preserves
  show (ATS.bloomAdd (ATS.applyMarks (ATS.newService hashFns)
      prior).seenNoticesBloom (u ++ ":" ++ n)).bits.getD (h (u ++ ":" ++ n) % 10000)
      false = true
  unfold ATS.bloomAdd
  have hsz1 : (ATS.applyMarks (ATS.newService hashFns) prior).seenNoticesBloom.size
      = 10000 := by
    rw [applyMarks_bloom_size]
    rfl
  have hlen1 : (ATS.applyMarks (ATS.newService hashFns)
      prior).seenNoticesBloom.bits.length = 10000 := by
    rw [applyMarks_bloom_length]
    show (List.replicate 10000 false).length = 10000
    rw [List.length_replicate]
  have hfns1 : (ATS.applyMarks (ATS.newService hashFns)
      prior).seenNoticesBloom.hashFns = hashFns := by
    rw [applyMarks_bloom_hashFns]
    rfl
  rw [hfns1, hsz1]
  exact foldl_set_own hashFns (u ++ ":" ++ n) 10000 (by omega) _ hlen1 h hh2

/-! ## C3: eligibility membership lemmas -/

theorem mem_bmAdd (l : List Nat) (x y : Nat) : x ∈ ATS.bmAdd l y ↔ x = y ∨ x ∈ l := by
  induction l with
  | nil => simp [ATS.bmAdd]
  | cons z t ih =>
    simp only [ATS.bmAdd]
    split_ifs with h1 h2
    · simp only [List.mem_cons]
    · subst h2
      simp only [List.mem_cons]
      tauto
    · simp only [List.mem_cons, ih]
      tauto

theorem mem_bmOr (a b : List Nat) (x : Nat) : x ∈ ATS.bmOr a b ↔ x ∈ a ∨ x ∈ b := by
  unfold ATS.bmOr
  induction b generalizing a with
  | nil => simp
  | cons z t ih =>
    rw [List.foldl_cons, ih, mem_bmAdd]
    simp only [List.mem_cons]
    tauto

theorem mem_bmAnd (a b : List Nat) (x : Nat) : x ∈ ATS.bmAnd a b ↔ x ∈ a ∧ x ∈ b := by
  unfold ATS.bmAnd
  simp [List.mem_filter]

theorem mem_unionAll {m : List (String × List Nat)} {keys : List String} {x : Nat} :
    x ∈ ATS.unionAll m keys ↔ ∃ k ∈ keys, ∃ b, mlookup m k = some b ∧ x ∈ b := by
  have H : ∀ (ks : List String) (acc : List Nat),
      x ∈ ks.foldl (fun u k => match mlookup m k with
        | some b => ATS.bmOr u b
        | none => u) acc ↔
      x ∈ acc ∨ ∃ k ∈ ks, ∃ b, mlookup m k = some b ∧ x ∈ b := by
    intro ks
    induction ks with
    | nil => simp
    | cons k0 t ih =>
      intro acc
      rw [List.foldl_cons, ih]
      cases hlk : mlookup m k0 with
      | none =>
        simp only [hlk, List.mem_cons]
        constructor
        · rintro (h | ⟨k, hk, b, hb, hxb⟩)
          · exact Or.inl h
          · exact Or.inr ⟨k, Or.inr hk, b, hb, hxb⟩
        · rintro (h | ⟨k, hk | hk, b, hb, hxb⟩)
          · exact Or.inl h
          · subst hk
            rw [hlk] at hb
            cases hb
          · exact Or.inr ⟨k, hk, b, hb, hxb⟩
      | some b0 =>
        simp only [hlk, mem_bmOr, List.mem_cons]
        constructor
        · rintro ((h | h) | ⟨k, hk, b, hb, hxb⟩)
          · exact Or.inl h
          · exact Or.inr ⟨k0, Or.inl rfl, b0, hlk, h⟩
          · exact Or.inr ⟨k, Or.inr hk, b, hb, hxb⟩
        · rintro (h | ⟨k, hk | hk, b, hb, hxb⟩)
          · exact Or.inl (Or.inl h)
          · subst hk
            rw [hlk] at hb
            injection hb with hbb
            subst hbb
            exact Or.inl (Or.inr hxb)
          · exact Or.inr ⟨k, hk, b, hb, hxb⟩
  exact (H keys []).trans (by simp)

theorem unionAll_append_superset {m : List (String × List Nat)} {keys : List String}
    {v : String} {x : Nat} (hx : x ∈ ATS.unionAll m keys) :
    x ∈ ATS.unionAll m (keys ++ [v]) := by
  rw [mem_unionAll] at *
  obtain ⟨k, hk, b, hb, hxb⟩ := hx
  exact ⟨k, List.mem_append.mpr (Or.inl hk), b, hb, hxb⟩

theorem mem_stage1 {s : ATS.TargetingState} {rule : ATS.AudienceRule} {x : Nat}
    (hx : x ∈ ATS.stage1 s rule) :
    x ∈ ATS.unionAll s.departmentBitmaps rule.departments := by
  unfold ATS.stage1 at hx
  split_ifs at hx
  · exact hx
  · cases hx

theorem mem_stage3_of_dims (s : ATS.TargetingState) (rule : ATS.AudienceRule) (x : Nat)
    (h1 : rule.departments ≠ [] → x ∈ ATS.unionAll s.departmentBitmaps rule.departments)
    (h2 : rule.roles ≠ [] → x ∈ ATS.unionAll s.roleBitmaps rule.roles)
    (h3 : rule.locations ≠ [] → x ∈ ATS.unionAll s.locationBitmaps rule.locations)
    (hne : ¬(rule.departments = [] ∧ rule.roles = [] ∧ rule.locations = [])) :
    x ∈ ATS.stage3 s rule := by
  have hs1 : rule.departments ≠ [] → x ∈ ATS.stage1 s rule := by
    intro hd
    unfold ATS.stage1
    rw [if_pos hd]
    exact h1 hd
  have hs2 : (rule.departments ≠ [] ∨ rule.roles ≠ []) → x ∈ ATS.stage2 s rule := by
    intro hor
    simp only [ATS.stage2]
    by_cases hr : rule.roles ≠ []
    · rw [if_pos hr]
      by_cases hz : (ATS.stage1 s rule).length = 0
      · rw [if_pos hz]
        exact h2 hr
      · rw [if_neg hz]
        refine (mem_bmAnd _ _ _).mpr ⟨?_, h2 hr⟩
        by_cases hd : rule.departments = []
        · exfalso
          apply hz
          simp [ATS.stage1, hd]
        · exact hs1 hd
    · rw [if_neg hr]
      rcases hor with hd | hrr
      · exact hs1 hd
      · exact absurd hrr hr
  simp only [ATS.stage3]
  by_cases hl : rule.locations ≠ []
  · rw [if_pos hl]
    by_cases hz : (ATS.stage2 s rule).length = 0
    · rw [if_pos hz]
      exact h3 hl
    · rw [if_neg hz]
      refine (mem_bmAnd _ _ _).mpr ⟨?_, h3 hl⟩
      by_cases hd : rule.departments = []
      · by_cases hr : rule.roles = []
        · exfalso
          apply hz
          simp [ATS.stage2, ATS.stage1, hd, hr]
        · exact hs2 (Or.inr hr)
      · exact hs2 (Or.inl hd)
  · rw [if_neg hl]
    apply hs2
    tauto

theorem stage3_mem_dims (s : ATS.TargetingState) (rule : ATS.AudienceRule)
    (hnb : ATS.noBadFallback s rule) (x : Nat) (hx : x ∈ ATS.stage3 s rule) :
    (rule.departments ≠ [] → x ∈ ATS.unionAll s.departmentBitmaps rule.departments) ∧
    (rule.roles ≠ [] → x ∈ ATS.unionAll s.roleBitmaps rule.roles) ∧
    (rule.locations ≠ [] → x ∈ ATS.unionAll s.locationBitmaps rule.locations) := by
  obtain ⟨hnb1, hnb2⟩ := hnb
  have hB : ∀ y, y ∈ ATS.stage2 s rule →
      (rule.departments ≠ [] → y ∈ ATS.unionAll s.departmentBitmaps rule.departments) ∧
      (rule.roles ≠ [] → y ∈ ATS.unionAll s.roleBitmaps rule.roles) := by
    intro y hy
    simp only [ATS.stage2] at hy
    split_ifs at hy with hr hz
    · have hs1e : ATS.stage1 s rule = [] := List.length_eq_zero.mp hz
      have hde := hnb1 hr hs1e
      exact ⟨fun hd => absurd hde hd, fun _ => hy⟩
    · have hand := (mem_bmAnd _ _ _).mp hy
      exact ⟨fun _ => mem_stage1 hand.1, fun _ => hand.2⟩
    · exact ⟨fun _ => mem_stage1 hy, fun hrr => absurd hrr hr⟩
  simp only [ATS.stage3] at hx
  split_ifs at hx with hl hz
  · have hs2e : ATS.stage2 s rule = [] := List.length_eq_zero.mp hz
    obtain ⟨hde, hre⟩ := hnb2 hl hs2e
    exact ⟨fun hd => absurd hde hd, fun hr => absurd hre hr, fun _ => hx⟩
  · have hand := (mem_bmAnd _ _ _).mp hx
    obtain ⟨hd2, hr2⟩ := hB x hand.1
    exact ⟨hd2, hr2, fun _ => hand.2⟩
  · obtain ⟨hd2, hr2⟩ := hB x hx
    exact ⟨hd2, hr2, fun hll => absurd hll hl⟩

theorem mem_convert_tagged (s : ATS.TargetingState) (tagSet : List String) :
    ∀ (bm : List Nat) (acc : List String) (u : String),
      (u ∈ bm.foldl (fun res numericId => match mlookup s.numberToUserId numericId with
        | some userId => if userId ∈ tagSet then res ++ [userId] else res
        | none => res) acc ↔
      u ∈ acc ∨ ∃ nid ∈ bm, mlookup s.numberToUserId nid = some u ∧ u ∈ tagSet) := by
  intro bm
  induction bm with
  | nil => simp
  | cons n0 t ih =>
    intro acc u
    rw [List.foldl_cons, ih]
    cases hlk : mlookup s.numberToUserId n0 with
    | none =>
      simp only [hlk, List.mem_cons]
      constructor
      · rintro (h | ⟨k, hk, hb, hu⟩)
        · exact Or.inl h
        · exact Or.inr ⟨k, Or.inr hk, hb, hu⟩
      · rintro (h | ⟨k, hk | hk, hb, hu⟩)
        · exact Or.inl h
        · subst hk
          rw [hlk] at hb
          cases hb
        · exact Or.inr ⟨k, hk, hb, hu⟩
    | some uid =>
      simp only [hlk]
      by_cases htag : uid ∈ tagSet
      · rw [if_pos htag]
        simp only [List.mem_append, List.mem_cons]
        constructor
        · rintro ((h | h | h) | ⟨k, hk, hb, hu⟩)
          · exact Or.inl h
          · subst h
            exact Or.inr ⟨n0, Or.inl rfl, hlk, htag⟩
          · cases h
          · exact Or.inr ⟨k, Or.inr hk, hb, hu⟩
        · rintro (h | ⟨k, hk | hk, hb, hu⟩)
          · exact Or.inl (Or.inl h)
          · subst hk
            rw [hlk] at hb
            injection hb with hbb
            subst hbb
            exact Or.inl (Or.inr (Or.inl rfl))
          · exact Or.inr ⟨k, hk, hb, hu⟩
      · rw [if_neg htag]
        simp only [List.mem_cons]
        constructor
        · rintro (h | ⟨k, hk, hb, hu⟩)
          · exact Or.inl h
          · exact Or.inr ⟨k, Or.inr hk, hb, hu⟩
        · rintro (h | ⟨k, hk | hk, hb, hu⟩)
          · exact Or.inl h
          · subst hk
            rw [hlk] at hb
            injection hb with hbb
            subst hbb
            exact absurd hu htag
          · exact Or.inr ⟨k, hk, hb, hu⟩

theorem mem_convert_plain (s : ATS.TargetingState) :
    ∀ (bm : List Nat) (acc : List String) (u : String),
      (u ∈ bm.foldl (fun res numericId => match mlookup s.numberToUserId numericId with
        | some userId => res ++ [userId]
        | none => res) acc ↔
      u ∈ acc ∨ ∃ nid ∈ bm, mlookup s.numberToUserId nid = some u) := by
  intro bm
  induction bm with
  | nil => simp
  | cons n0 t ih =>
    intro acc u
    rw [List.foldl_cons, ih]
    cases hlk : mlookup s.numberToUserId n0 with
    | none =>
      simp only [hlk, List.mem_cons]
      constructor
      · rintro (h | ⟨k, hk, hb⟩)
        · exact Or.inl h
        · exact Or.inr ⟨k, Or.inr hk, hb⟩
      · rintro (h | ⟨k, hk | hk, hb⟩)
        · exact Or.inl h
        · subst hk
          rw [hlk] at hb
          cases hb
        · exact Or.inr ⟨k, hk, hb⟩
    | some uid =>
      simp only [hlk, List.mem_append, List.mem_cons]
      constructor
      · rintro ((h | h | h) | ⟨k, hk, hb⟩)
        · exact Or.inl h
        · subst h
          exact Or.inr ⟨n0, Or.inl rfl, hlk⟩
        · cases h
        · exact Or.inr ⟨k, Or.inr hk, hb⟩
      · rintro (h | ⟨k, hk | hk, hb⟩)
        · exact Or.inl (Or.inl h)
        · subst hk
          rw [hlk] at hb
          injection hb with hbb
          subst hbb
          exact Or.inl (Or.inr (Or.inl rfl))
        · exact Or.inr ⟨k, hk, hb⟩

/-- C3 (counterexample): `c3rule2` adds exactly one department value to
`c3rule1` (tags fixed), yet alice — eligible under `c3rule1`, whose unknown
department yields an empty union that the `size === 0` branch replaces by
the role union — is no longer eligible under `c3rule2`, whose now non-empty
department union is intersected with the roles.  Adding a value to a
dimension therefore can remove a previously-eligible user. -/
theorem C3_add_department_removes_user :
    c3rule2.departments = c3rule1.departments ++ ["Sales"] ∧
    c3rule2.roles = c3rule1.roles ∧
    c3rule2.locations = c3rule1.locations ∧
    c3rule2.tags = c3rule1.tags ∧
    "alice" ∈ ATS.findEligibleUsers c3s c3rule1 ∧
    "alice" ∉ ATS.findEligibleUsers c3s c3rule2 := by
  refine ⟨rfl, rfl, rfl, rfl, by decide, by decide⟩

/-- C3 (amended): eligibility is monotone in each bitmap dimension provided
the extended dimension is already non-empty and evaluating the smaller rule
never hits the empty-accumulator replacement after a non-empty dimension
(`noBadFallback`): then every user eligible under the rule stays eligible
after one value is added to that dimension (tags held fixed).  Without
those provisos the counterexample applies. -/
theorem C3_eligibility_monotone (s : ATS.TargetingState) (rule : ATS.AudienceRule)
    (d : ATS.BitmapDim) (v : String)
    (hd : ATS.dimValues rule d ≠ [])
    (hnb : ATS.noBadFallback s rule) :
    ∀ u ∈ ATS.findEligibleUsers s rule,
      u ∈ ATS.findEligibleUsers s (ATS.addDimValue rule d v) := by
  intro u hu
  have hne1 : ¬(rule.departments = [] ∧ rule.roles = [] ∧ rule.locations = []) := by
    cases d <;> simp only [ATS.dimValues] at hd <;> tauto
  have htags : (ATS.addDimValue rule d v).tags = rule.tags := by
    cases d <;> rfl
  have hne2 : ¬((ATS.addDimValue rule d v).departments = [] ∧
      (ATS.addDimValue rule d v).roles = [] ∧
      (ATS.addDimValue rule d v).locations = []) := by
    cases d <;> simp [ATS.addDimValue]
  have hbm1 : ATS.bitmapResult s rule = ATS.stage3 s rule := by
    unfold ATS.bitmapResult
    rw [if_neg hne1]
  have hbm2 : ATS.bitmapResult s (ATS.addDimValue rule d v) =
      ATS.stage3 s (ATS.addDimValue rule d v) := by
    unfold ATS.bitmapResult
    rw [if_neg hne2]
  have htrans : ∀ x ∈ ATS.stage3 s rule, x ∈ ATS.stage3 s (ATS.addDimValue rule d v) := by
    intro x hx
    obtain ⟨hxd, hxr, hxl⟩ := stage3_mem_dims s rule hnb x hx
    apply mem_stage3_of_dims s (ATS.addDimValue rule d v) x ?_ ?_ ?_ hne2
    · cases d with
      | departments =>
        intro _
        exact unionAll_append_superset (hxd hd)
      | roles =>
        intro hh
        exact hxd hh
      | locations =>
        intro hh
        exact hxd hh
    · cases d with
      | departments =>
        intro hh
        exact hxr hh
      | roles =>
        intro _
        exact unionAll_append_superset (hxr hd)
      | locations =>
        intro hh
        exact hxr hh
    · cases d with
      | departments =>
        intro hh
        exact hxl hh
      | roles =>
        intro hh
        exact hxl hh
      | locations =>
        intro _
        exact unionAll_append_superset (hxl hd)
  unfold ATS.findEligibleUsers at hu ⊢
  rw [hbm1] at hu
  rw [hbm2, htags]
  by_cases ht : rule.tags ≠ []
  · rw [if_pos ht] at hu ⊢
    rw [mem_convert_tagged] at hu ⊢
    rcases hu with h | ⟨nid, hnid, hlk, htag⟩
    · cases h
    · exact Or.inr ⟨nid, htrans nid hnid, hlk, htag⟩
  · rw [if_neg ht] at hu ⊢
    rw [mem_convert_plain] at hu ⊢
    rcases hu with h | ⟨nid, hnid, hlk⟩
    · cases h
    · exact Or.inr ⟨nid, htrans nid hnid, hlk⟩

theorem C3_eligibility_monotone_witness :
    ATS.dimValues c3rule1eng .departments ≠ [] ∧
    (∀ u ∈ ATS.findEligibleUsers c3s c3rule1eng,
      u ∈ ATS.findEligibleUsers c3s (ATS.addDimValue c3rule1eng .departments "Sales")) :=
  ⟨by decide,
    C3_eligibility_monotone c3s c3rule1eng .departments "Sales" (by decide)
      ⟨fun _ h => absurd h (by decide), fun hl _ => absurd rfl hl⟩⟩

theorem C7_scan_never_activates_expired_witness :
    mlookup (Sched.processScheduledNotices c7scanState 1000).activeNotices "exp7" =
      mlookup c7scanState.activeNotices "exp7" ∧
    (∀ ch x,
      x ∈ (mlookup (Sched.processScheduledNotices c7scanState 1000).displayBuffers ch).getD [] →
      x.noticeId = "exp7" → x ∈ (mlookup c7scanState.displayBuffers ch).getD []) :=
  C7_scan_never_activates_expired c7scanState 1000 "exp7" (by decide)

end NoticeBoard
